import Mathlib

/-!
Shallow embedding of the tex2typst-rs pipeline (tokenizer, macro expander,
parser, converter, writer) and verification of the frozen claims.

Conventions of the embedding:
* Rust `&str`/`Vec<char>` scanning with integer positions is modelled by
  consuming `List Char` / `List TexToken` suffixes (the Rust code only ever
  reads at or after the current position, so the remainder determines the
  behaviour).
* Rust loops and recursion are modelled with an explicit `fuel : Nat`
  parameter which strictly decreases on every call; `Failure.fuel` is the
  out-of-fuel outcome and is never produced when the fuel is at least the
  stated bound.
* A Rust `panic!` / failed `assert!` / out-of-bounds index is modelled as
  `Failure.panic msg`; a returned `Err` is `Failure.err msg`.
* Machine integers only occur as positions and counts, modelled by `Nat`.
-/

/-- Outcome of a fallible Rust computation: an `Err` return, a process abort
(panic, assertion failure, out-of-bounds index), or embedding fuel exhaustion. -/
inductive Failure where
  | err (msg : String)
  | panic (msg : String)
  | fuel
deriving DecidableEq, Repr

/-- The apostrophe character (ASCII 39), the prime mark of the source language. -/
def primeChar : Char := Char.ofNat 39

/-- "{" as a character (kept symbolic). -/
def lbrace : Char := Char.ofNat 123

/-- "}" as a character (kept symbolic). -/
def rbrace : Char := Char.ofNat 125

/-- One-character strings used throughout. -/
def primeStr : String := String.mk [primeChar]

def lbraceStr : String := String.mk [lbrace]

def rbraceStr : String := String.mk [rbrace]

def backslashStr : String := String.mk ['\\']

/-- Rust `char::is_alphabetic`, restricted to ASCII (all inputs considered in
this development are ASCII, where the two functions agree). -/
def isAlphabeticR (c : Char) : Bool := c.isAlpha

/-- Rust `char::is_digit(10)`. -/
def isDigitR (c : Char) : Bool := c.isDigit

/-- The punctuation characters recognized as Element tokens by the tokenizers
(the Rust string literal is rebuilt as a character list). -/
def punctChars : List Char :=
  ['+', '-', '*', '/', '=', primeChar, '<', '>', '!', '.', ',', ';', ':', '?',
   '(', ')', '[', ']', '|']

/-- Rust `str::replace`: replace every non-overlapping occurrence of `pat`
(nonempty) left to right; replacements are not rescanned. -/
def rustReplaceGo (fuel : Nat) (cs pat rep : List Char) : List Char :=
  match fuel, cs with
  | 0, cs => cs
  | _ + 1, [] => []
  | f + 1, c :: rest =>
    if pat.isPrefixOf (c :: rest) then
      rep ++ rustReplaceGo f ((c :: rest).drop pat.length) pat rep
    else
      c :: rustReplaceGo f rest pat rep

def rustReplace (s pat rep : String) : String :=
  String.mk (rustReplaceGo (s.data.length + 1) s.data pat.data rep.data)

/-- Token kinds of the source language (`TexTokenType` in `definitions.rs`,
plus the `NoBreakSpace` variant used by the tokenizers and parser). -/
inductive TexTokenType where
  | Element
  | Command
  | Text
  | Comment
  | Space
  | Newline
  | NoBreakSpace
  | Control
  | Unknown
deriving DecidableEq, Repr

/-- `TexToken` of `definitions.rs`. -/
structure TexToken where
  token_type : TexTokenType
  value : String
deriving DecidableEq, Repr

namespace TexTokenizer

/-- `eat_command_name` of `tex_tokenizer.rs`: the maximal alphabetic run. -/
def eatCommandName (cs : List Char) : String :=
  String.mk (cs.takeWhile isAlphabeticR)

/-- `find_closing_curly_bracket_char`: scan the characters after a `{` with a
running depth `count`, skipping the two-character escapes `\{` and `\}`;
returns the characters strictly inside and the characters after the matching
`}`. -/
def findClosingCurlyChar (fuel : Nat) (count : Nat) (cs : List Char) :
    Except Failure (List Char × List Char) :=
  match fuel with
  | 0 => .error .fuel
  | f + 1 =>
    match cs with
    | [] => .error (.err "Unmatched curly brackets")
    | c :: rest =>
      if c = '\\' ∧ (rest.head? = some lbrace ∨ rest.head? = some rbrace) then
        match rest with
        | d :: rest2 =>
          (findClosingCurlyChar f count rest2).map fun p => (c :: d :: p.1, p.2)
        | [] => .error (.err "Unmatched curly brackets")
      else if c = lbrace then
        (findClosingCurlyChar f (count + 1) rest).map fun p => (c :: p.1, p.2)
      else if c = rbrace then
        if count = 1 then .ok ([], rest)
        else (findClosingCurlyChar f (count - 1) rest).map fun p => (c :: p.1, p.2)
      else
        (findClosingCurlyChar f count rest).map fun p => (c :: p.1, p.2)

/-- The characters unescaped inside a `\text`-style block, in the order the
Rust loop applies the `str::replace` calls. -/
def unescapeChars : List Char := [lbrace, rbrace, '\\', '$', '&', '#', '_', '%']

/-- The sequential unescaping of a text block's raw contents. -/
def unescapeText (s : String) : String :=
  unescapeChars.foldl
    (fun acc c => rustReplace acc (String.mk ['\\', c]) (String.mk [c])) s

/-- The commands whose following `{…}` block is re-scanned as a Text token. -/
def textCommands : List String :=
  ["\\text", "\\operatorname", "\\begin", "\\end"]

/-- One scanning step shared by both tokenizers: the next token and the
remaining characters (before the Text-block post-processing). -/
def scanToken (cs : List Char) : Except Failure (TexToken × List Char) :=
  match cs with
  | [] => .error (.panic "scanToken on empty input")
  | c :: rest =>
    if c = '%' then
      let comment := rest.takeWhile (fun d => d ≠ '\n')
      .ok (⟨.Comment, String.mk comment⟩, rest.drop comment.length)
    else if c = lbrace ∨ c = rbrace ∨ c = '_' ∨ c = '^' ∨ c = '&' then
      .ok (⟨.Control, String.mk [c]⟩, rest)
    else if c = '\n' then
      .ok (⟨.Newline, String.mk ['\n']⟩, rest)
    else if c = '\r' then
      match rest with
      | '\n' :: rest2 => .ok (⟨.Newline, String.mk ['\n']⟩, rest2)
      | _ => .ok (⟨.Newline, String.mk ['\n']⟩, rest)
    else if c = ' ' then
      let run := cs.takeWhile (fun d => d = ' ')
      .ok (⟨.Space, String.mk run⟩, cs.drop run.length)
    else if c = '\\' then
      match rest with
      | [] => .error (.err ("Expecting command name after " ++ primeStr ++ "\\" ++ primeStr))
      | d :: rest2 =>
        if d = '\\' ∨ d = ',' then
          .ok (⟨.Control, String.mk [c, d]⟩, rest2)
        else if d = lbrace ∨ d = rbrace ∨ d = '%' ∨ d = '$' ∨ d = '&' ∨ d = '#'
            ∨ d = '_' ∨ d = '|' then
          .ok (⟨.Element, String.mk [c, d]⟩, rest2)
        else
          let name := eatCommandName rest
          .ok (⟨.Command, backslashStr ++ name⟩, rest.drop name.length)
    else if isDigitR c then
      let run := cs.takeWhile isDigitR
      .ok (⟨.Element, String.mk run⟩, cs.drop run.length)
    else if isAlphabeticR c then
      .ok (⟨.Element, String.mk [c]⟩, rest)
    else if c ∈ punctChars then
      .ok (⟨.Element, String.mk [c]⟩, rest)
    else if c = '~' then
      -- mirrors `pos += token.value.len()` with value "space.nobreak" (13 bytes)
      .ok (⟨.NoBreakSpace, "space.nobreak"⟩, cs.drop 13)
    else
      .ok (⟨.Unknown, String.mk [c]⟩, rest)

/-- The main loop of `tex_tokenizer.rs::tokenize`.  After a `\text`-style
command it seeks the next `{` anywhere in the rest of the input (an error
only when none exists), then re-scans the block as a single Text token. -/
def tokenizeLoop (fuel : Nat) (cs : List Char) : Except Failure (List TexToken) :=
  match fuel with
  | 0 => .error .fuel
  | f + 1 =>
    match cs with
    | [] => .ok []
    | _ :: _ => do
      let (tok, rest1) ← scanToken cs
      if tok.token_type = .Command ∧ tok.value ∈ textCommands then
        let rest2 := rest1.dropWhile (fun d => d ≠ lbrace)
        match rest2 with
        | [] => .error (.err ("No content for " ++ tok.value ++ " command"))
        | _ :: afterBrace => do
          let (insideCs, rest3) ← findClosingCurlyChar (afterBrace.length + 1) 1 afterBrace
          let textTok : TexToken := ⟨.Text, unescapeText (String.mk insideCs)⟩
          let toks ← tokenizeLoop f rest3
          .ok (tok :: ⟨.Control, lbraceStr⟩ :: textTok :: ⟨.Control, rbraceStr⟩ :: toks)
      else do
        let toks ← tokenizeLoop f rest1
        .ok (tok :: toks)

/-- `tex_tokenizer.rs::tokenize`. -/
def tokenize (latex : String) : Except Failure (List TexToken) :=
  tokenizeLoop (latex.data.length + 1) latex.data

end TexTokenizer

/-- The source AST (`TexNode` of `definitions.rs`).  The Rust struct
`{node_type, content, args, data}` is a poor man's tagged union; it is
modelled as a tagged variant per `TexNodeType`, each carrying exactly the
payload fields the code reads for that variant (`UnaryFunc` carries the
single argument of its `args` vector and the optional `Sqrt` data;
`SupSub` carries the `TexSupsubData` fields; `Leftright` carries its three
`args` entries; `BeginEnd` carries the `Array` grid).  The
`OptionBinaryFunc` variant appears in `converter.rs` but is never produced
by the parser in `tex_parser.rs`. -/
inductive TexNode where
  | element (content : String)
  | text (content : String)
  | comment (content : String)
  | whitespace (content : String)
  | noBreakSpace (content : String)
  | control (content : String)
  | unknown (content : String)
  | ordgroup (args : List TexNode)
  | supsub (base : TexNode) (sub : Option TexNode) (sup : Option TexNode)
  | unaryFunc (name : String) (arg : TexNode) (sqrtData : Option TexNode)
  | binaryFunc (name : String) (arg1 : TexNode) (arg2 : TexNode)
  | optionBinaryFunc (name : String) (args : List TexNode)
  | leftright (left : TexNode) (body : TexNode) (right : TexNode)
  | beginEnd (name : String) (grid : List (List TexNode))
  | symbol (content : String)
  | unknownMacro (content : String)
  | empty
deriving Repr

/-- Token constants of `tex_parser.rs` / `tex_parser_utils.rs`. -/
def SUB_SYMBOL : TexToken := ⟨.Control, "_"⟩

def SUP_SYMBOL : TexToken := ⟨.Control, "^"⟩

def LEFT_CURLY : TexToken := ⟨.Control, lbraceStr⟩

def RIGHT_CURLY : TexToken := ⟨.Control, rbraceStr⟩

def LEFT_SQUARE : TexToken := ⟨.Element, "["⟩

def RIGHT_SQUARE : TexToken := ⟨.Element, "]"⟩

def LEFT_COMMAND : TexToken := ⟨.Command, "\\left"⟩

def RIGHT_COMMAND : TexToken := ⟨.Command, "\\right"⟩

def BEGIN_COMMAND : TexToken := ⟨.Command, "\\begin"⟩

def END_COMMAND : TexToken := ⟨.Command, "\\end"⟩

/-- `find_closing_match` of `tex_parser.rs`, applied to the tokens after the
opening token with the running `count`; returns the tokens strictly inside
and those after the matching closer, or `none` (Rust's `-1`). -/
def findClosingMatchTok (left right : TexToken) :
    Nat → List TexToken → Option (List TexToken × List TexToken)
  | _, [] => none
  | count, t :: rest =>
    if t = left then
      (findClosingMatchTok left right (count + 1) rest).map fun p => (t :: p.1, p.2)
    else if t = right then
      if count = 1 then some ([], rest)
      else (findClosingMatchTok left right (count - 1) rest).map fun p => (t :: p.1, p.2)
    else
      (findClosingMatchTok left right count rest).map fun p => (t :: p.1, p.2)

/-- `eat_whitespaces`: the number of leading Space/Newline tokens. -/
def eatWhitespaces (toks : List TexToken) : Nat :=
  (toks.takeWhile fun t => t.token_type = .Space ∨ t.token_type = .Newline).length

/-- `eat_parenthesis`: a delimiter token, or `none`. -/
def eatParenthesis (tok : TexToken) : Option TexToken :=
  if tok.token_type = .Element ∧
      tok.value ∈ ["(", ")", "[", "]", "|", backslashStr ++ lbraceStr,
        backslashStr ++ rbraceStr, "."] then
    some tok
  else if tok.token_type = .Command ∧
      tok.value.drop 1 ∈ ["lfloor", "rfloor", "lceil", "rceil", "langle", "rangle"] then
    some tok
  else
    none

/-- `eat_primes`: the number of leading prime Element tokens. -/
def countPrimes (toks : List TexToken) : Nat :=
  (toks.takeWhile fun t => t = ⟨.Element, primeStr⟩).length

/-- Modelled from the spec: the static symbol-name table of the `map` module
(declared in `lib.rs` but absent from `src/`).  Per §4.4 of the spec, escaped
names are "looked up in a symbol-name table, falling back to the bare name
when absent"; only entries attested by the spec and the repository's tests
are included here, and every name the claims exercise that is not listed
falls back to its bare spelling exactly as in the source. -/
def SYMBOL_MAP : List (String × String) :=
  [("lfloor", "floor.l"), ("rfloor", "floor.r"), ("lceil", "ceil.l"),
   ("rceil", "ceil.r"), ("partial", "diff"), ("pm", "plus.minus"),
   ("int", "integral"), ("infty", "infinity"), ("square", "square"),
   ("longrightarrow", "arrow.r.long"), ("Longrightarrow", "arrow.r.double.long")]

/-- `get_symbol_map().contains_key(..)`. -/
def symbolMapContains (s : String) : Bool :=
  (SYMBOL_MAP.find? fun p => p.1 = s).isSome

namespace TexParser

/-- `UNARY_COMMANDS` of `tex_parser.rs` (this list, unlike the registry's,
contains `sqrt` and `text` and no `floor`). -/
def UNARY_COMMANDS : List String :=
  ["sqrt", "text", "bar", "bold", "boldsymbol", "ddot", "dot", "hat", "mathbb",
   "mathbf", "mathcal", "mathfrak", "mathit", "mathrm", "mathscr", "mathsf",
   "mathtt", "operatorname", "overbrace", "overline", "pmb", "rm", "tilde",
   "underbrace", "underline", "vec", "overrightarrow", "widehat", "widetilde"]

def BINARY_COMMANDS : List String :=
  ["frac", "tfrac", "binom", "dbinom", "dfrac", "tbinom", "overset"]

/-- `get_command_param_num`. -/
def getCommandParamNum (command : String) : Nat :=
  if command ∈ UNARY_COMMANDS then 1
  else if command ∈ BINARY_COMMANDS then 2
  else 0

/-- The main loop of `tex_parser.rs::tokenize`; identical to
`TexTokenizer.tokenizeLoop` except that a `\text`-style command whose next
character is not `{` aborts (the Rust code panics there instead of seeking
the next brace).  The shared `scanToken` uses the sibling file's quoting in
the missing-command-name message; the two source copies differ only in that
wording. -/
def tokenizeLoop (fuel : Nat) (cs : List Char) : Except Failure (List TexToken) :=
  match fuel with
  | 0 => .error .fuel
  | f + 1 =>
    match cs with
    | [] => .ok []
    | _ :: _ => do
      let (tok, rest1) ← TexTokenizer.scanToken cs
      if tok.token_type = .Command ∧ tok.value ∈ TexTokenizer.textCommands then
        match rest1 with
        | [] => .error (.panic ("No content for " ++ tok.value ++ " command"))
        | c :: afterBrace =>
          if c = lbrace then do
            let (insideCs, rest3) ←
              TexTokenizer.findClosingCurlyChar (afterBrace.length + 1) 1 afterBrace
            let textTok : TexToken := ⟨.Text, TexTokenizer.unescapeText (String.mk insideCs)⟩
            let toks ← tokenizeLoop f rest3
            .ok (tok :: ⟨.Control, lbraceStr⟩ :: textTok :: ⟨.Control, rbraceStr⟩ :: toks)
          else
            .error (.panic ("No content for " ++ tok.value ++ " command"))
      else do
        let toks ← tokenizeLoop f rest1
        .ok (tok :: toks)

/-- `tex_parser.rs::tokenize`. -/
def tokenize (latex : String) : Except Failure (List TexToken) :=
  tokenizeLoop (latex.data.length + 1) latex.data

/-- `LatexParser`'s two sensitivity flags. -/
structure LatexParser where
  space_sensitive : Bool
  newline_sensitive : Bool

/-- The prime-folding construction at the end of `parse_next_expr`:
`num_prime` leading prime elements, the optional explicit sup appended, a
single element unwrapped, the total packed into a `SupSub` node. -/
def buildSupsub (base : TexNode) (sub sup : Option TexNode) (numPrime : Nat) : TexNode :=
  if numPrime > 0 then
    let primes := List.replicate numPrime (TexNode.element primeStr)
    let args := primes ++ (match sup with | some s => [s] | none => [])
    match args with
    | [single] => .supsub base sub (some single)
    | _ => .supsub base sub (some (.ordgroup args))
  else
    .supsub base sub sup

mutual

/-- The top-level loop of `LatexParser::parse`: repeatedly take the next
expression, dropping insignificant whitespace and aborting on a top-level
alignment mark. -/
def parseLoop (fuel : Nat) (p : LatexParser) (toks : List TexToken) :
    Except Failure (List TexNode) :=
  match fuel with
  | 0 => .error .fuel
  | f + 1 =>
    match toks with
    | [] => .ok []
    | _ :: _ => do
      let (res, rest) ← parseNextExpr f p toks
      match res with
      | .whitespace content =>
        if (!p.space_sensitive ∧ rustReplace content " " "" = "")
            ∨ (!p.newline_sensitive ∧ content = "\n") then
          parseLoop f p rest
        else
          (parseLoop f p rest).map fun l => res :: l
      | .control content =>
        if content = "&" then .error (.panic "Unexpected & outside of an alignment")
        else (parseLoop f p rest).map fun l => res :: l
      | _ => (parseLoop f p rest).map fun l => res :: l

/-- `LatexParser::parse`: wraps the collected expressions (`Empty` when none,
the single node, else an `Ordgroup`). -/
def parse (fuel : Nat) (p : LatexParser) (toks : List TexToken) :
    Except Failure TexNode :=
  match fuel with
  | 0 => .error .fuel
  | f + 1 =>
    (parseLoop f p toks).map fun results =>
      match results with
      | [] => .empty
      | [r] => r
      | rs => .ordgroup rs

/-- `LatexParser::parse_next_expr`: one base expression, then trailing primes
and the optional sub/sup pair in either order; primes after a consumed
superscript abort with "Double superscript".  `numPrime` mirrors the Rust
running total `num_prime` (which, after the subscript, is added to `pos` in
full, dropping that many tokens). -/
def parseNextExpr (fuel : Nat) (p : LatexParser) (toks : List TexToken) :
    Except Failure (TexNode × List TexToken) :=
  match fuel with
  | 0 => .error .fuel
  | f + 1 => do
    let (base, rest0) ← parseNextExprWithoutSupsub f p toks
    let n0 := countPrimes rest0
    let rest1 := rest0.drop n0
    if rest1.head? = some SUB_SYMBOL then do
      let (subNode, rest2) ← parseNextExprWithoutSupsub f p rest1.tail
      let numPrime := n0 + countPrimes rest2
      let rest3 := rest2.drop numPrime
      if rest3.head? = some SUP_SYMBOL then do
        let (supNode, rest4) ← parseNextExprWithoutSupsub f p rest3.tail
        if countPrimes rest4 > 0 then .error (.panic "Double superscript")
        else .ok (buildSupsub base (some subNode) (some supNode) numPrime, rest4)
      else
        .ok (buildSupsub base (some subNode) none numPrime, rest3)
    else if rest1.head? = some SUP_SYMBOL then do
      let (supNode, rest2) ← parseNextExprWithoutSupsub f p rest1.tail
      if countPrimes rest2 > 0 then .error (.panic "Double superscript")
      else if rest2.head? = some SUB_SYMBOL then do
        let (subNode, rest3) ← parseNextExprWithoutSupsub f p rest2.tail
        if countPrimes rest3 > 0 then .error (.panic "Double superscript")
        else .ok (buildSupsub base (some subNode) (some supNode) n0, rest3)
      else
        .ok (buildSupsub base none (some supNode) n0, rest2)
    else
      if n0 > 0 then .ok (buildSupsub base none none n0, rest1)
      else .ok (base, rest1)

/-- `LatexParser::parse_next_expr_without_supsub`: dispatch on the first
token.  An empty remainder mirrors the out-of-bounds index `&tokens[start]`. -/
def parseNextExprWithoutSupsub (fuel : Nat) (p : LatexParser) (toks : List TexToken) :
    Except Failure (TexNode × List TexToken) :=
  match fuel with
  | 0 => .error .fuel
  | f + 1 =>
    match toks with
    | [] => .error (.panic "index out of bounds")
    | t :: rest =>
      match t.token_type with
      | .Element => .ok (.element t.value, rest)
      | .Text => .ok (.text t.value, rest)
      | .Comment => .ok (.comment t.value, rest)
      | .Space => .ok (.whitespace t.value, rest)
      | .Newline => .ok (.whitespace t.value, rest)
      | .NoBreakSpace => .ok (.noBreakSpace t.value, rest)
      | .Command =>
        if t = BEGIN_COMMAND then parseBeginEndExpr f p toks
        else if t = LEFT_COMMAND then parseLeftRightExpr f p toks
        else parseCommandExpr f p toks
      | .Control =>
        if t.value = lbraceStr then
          match findClosingMatchTok LEFT_CURLY RIGHT_CURLY 1 rest with
          | none => .error (.panic ("Unmatched " ++ primeStr ++ lbraceStr ++ primeStr))
          | some (inside, after) => (parse f p inside).map fun n => (n, after)
        else if t.value = rbraceStr then
          .error (.panic ("Unmatched " ++ primeStr ++ rbraceStr ++ primeStr))
        else if t.value = "\\\\" then .ok (.control "\\\\", rest)
        else if t.value = "\\," then .ok (.control "\\,", rest)
        else if t.value = "_" ∨ t.value = "^" then .ok (.empty, toks)
        else if t.value = "&" then .ok (.control "&", rest)
        else .error (.err "Unknown control sequence")
      | .Unknown => .ok (.unknown t.value, rest)

/-- `LatexParser::parse_command_expr`. -/
def parseCommandExpr (fuel : Nat) (p : LatexParser) (toks : List TexToken) :
    Except Failure (TexNode × List TexToken) :=
  match fuel with
  | 0 => .error .fuel
  | f + 1 =>
    match toks with
    | [] => .error (.panic "index out of bounds")
    | t :: rest =>
      let command := t.value
      if command.drop 1 ∈ ["left", "right", "begin", "end"] then
        .error (.panic ("Unexpected command: " ++ command))
      else
        match getCommandParamNum (command.drop 1) with
        | 0 =>
          if !symbolMapContains (command.drop 1) then
            .ok (.unknownMacro command, rest)
          else
            .ok (.symbol command, rest)
        | 1 =>
          if rest.isEmpty then .error (.panic ("Expecting argument for " ++ command))
          else if command = "\\sqrt" ∧ rest.head? = some LEFT_SQUARE then
            match findClosingMatchTok LEFT_SQUARE RIGHT_SQUARE 1 rest.tail with
            | none => .error (.panic "No matching right square bracket for [")
            | some (inside, after) => do
              let exponent ← parse f p inside
              let (arg1, rest2) ← parseNextExprWithoutSupsub f p after
              .ok (.unaryFunc command arg1 (some exponent), rest2)
          else if command = "\\text" then
            match rest with
            | a :: b :: c :: rest3 =>
              if a = LEFT_CURLY ∧ b.token_type = .Text ∧ c = RIGHT_CURLY then
                .ok (.text b.value, rest3)
              else
                .error (.panic "assertion failed")
            | _ => .error (.panic "Expecting content for \\text command")
          else do
            let (arg1, rest2) ← parseNextExprWithoutSupsub f p rest
            .ok (.unaryFunc command arg1 none, rest2)
        | 2 => do
          let (arg1, r1) ← parseNextExprWithoutSupsub f p rest
          let (arg2, r2) ← parseNextExprWithoutSupsub f p r1
          .ok (.binaryFunc command arg1 arg2, r2)
        | _ + 3 => .error (.err "Invalid number of parameters")

/-- `LatexParser::parse_left_right_expr`. -/
def parseLeftRightExpr (fuel : Nat) (p : LatexParser) (toks : List TexToken) :
    Except Failure (TexNode × List TexToken) :=
  match fuel with
  | 0 => .error .fuel
  | f + 1 =>
    match toks with
    | [] => .error (.panic "index out of bounds")
    | _ :: afterLeft =>
      let ws := eatWhitespaces afterLeft
      let rest1 := afterLeft.drop ws
      match rest1 with
      | [] => .error (.err "Expecting delimiter after \\left")
      | d :: _ =>
        match eatParenthesis d with
        | none => .error (.err "Invalid delimiter after \\left")
        | some leftDelim =>
          match findClosingMatchTok LEFT_COMMAND RIGHT_COMMAND 1 afterLeft with
          | none => .error (.err "No matching \\right")
          | some (inside0, afterRight) =>
            let ws2 := eatWhitespaces afterRight
            let rest3 := afterRight.drop ws2
            match rest3 with
            | [] => .error (.err "Expecting \\right after \\left")
            | d2 :: rest4 =>
              match eatParenthesis d2 with
              | none => .error (.err "Invalid delimiter after \\right")
              | some rightDelim => do
                let body ← parse f p (inside0.drop (ws + 1))
                .ok (.leftright (.element leftDelim.value) body
                  (.element rightDelim.value), rest4)

/-- `LatexParser::parse_begin_end_expr`. -/
def parseBeginEndExpr (fuel : Nat) (p : LatexParser) (toks : List TexToken) :
    Except Failure (TexNode × List TexToken) :=
  match fuel with
  | 0 => .error .fuel
  | f + 1 =>
    match toks with
    | [] => .error (.panic "index out of bounds")
    | _ :: rest =>
      match rest with
      | a :: b :: c :: rest3 =>
        if a = LEFT_CURLY ∧ b.token_type = .Text ∧ c = RIGHT_CURLY then
          let envName := b.value
          let ws := eatWhitespaces rest3
          match findClosingMatchTok BEGIN_COMMAND END_COMMAND 1 rest with
          | none => .error (.panic "No matching \\end")
          | some (inside0, afterEnd) =>
            match afterEnd with
            | a2 :: b2 :: c2 :: rest5 =>
              if a2 = LEFT_CURLY ∧ b2.token_type = .Text ∧ c2 = RIGHT_CURLY then
                if b2.value ≠ envName then
                  .error (.err "Mismatched \\begin and \\end environments")
                else do
                  let exprInside :=
                    ((inside0.drop (3 + ws)).reverse.dropWhile fun tk =>
                      tk.token_type = .Space ∨ tk.token_type = .Newline).reverse
                  let body ← parseAligned f p exprInside [[]]
                  .ok (.beginEnd envName body, rest5)
              else
                .error (.panic "assertion failed")
            | _ => .error (.panic "index out of bounds")
        else
          .error (.panic "assertion failed")
      | _ => .error (.panic "index out of bounds")

/-- `LatexParser::parse_aligned`.  The Rust code pushes `row.clone()` /
`group.clone()` by value and then keeps mutating the local `row`/`group`,
so the pushed clones never receive the later content: the returned grid is
the initial empty row followed by one `[Ordgroup []]` row per `\\` control
node, with every other parsed expression discarded (errors still propagate).
`acc` is the rows vector pushed so far (initially `[[]]`). -/
def parseAligned (fuel : Nat) (p : LatexParser) (toks : List TexToken)
    (acc : List (List TexNode)) : Except Failure (List (List TexNode)) :=
  match fuel with
  | 0 => .error .fuel
  | f + 1 =>
    match toks with
    | [] => .ok acc
    | _ :: _ => do
      let (res, rest) ← parseNextExpr f p toks
      match res with
      | .whitespace content =>
        if (!p.space_sensitive ∧ rustReplace content " " "" = "")
            ∨ (!p.newline_sensitive ∧ content = "\n") then
          parseAligned f p rest acc
        else
          parseAligned f p rest acc
      | .control content =>
        if content = "\\\\" then
          parseAligned f p rest (acc ++ [[TexNode.ordgroup []]])
        else
          parseAligned f p rest acc
      | _ => parseAligned f p rest acc

end

/-- `pass_ignore_whitespace_before_script_mark`: drop every Space token whose
original neighbour (either side) is a `_` or `^` control token. -/
def isScriptMark (tk : TexToken) : Bool := tk = SUB_SYMBOL ∨ tk = SUP_SYMBOL

def isScriptMarkOpt (o : Option TexToken) : Bool :=
  match o with
  | some tk => isScriptMark tk
  | none => false

def passIgnoreWsGo (prev : Option TexToken) : List TexToken → List TexToken
  | [] => []
  | t :: rest =>
    if t.token_type = .Space ∧ (isScriptMarkOpt rest.head? || isScriptMarkOpt prev) = true then
      passIgnoreWsGo (some t) rest
    else t :: passIgnoreWsGo (some t) rest

def passIgnoreWhitespaceBeforeScriptMark (tokens : List TexToken) : List TexToken :=
  passIgnoreWsGo none tokens

/-- `pass_expand_custom_tex_macros`: a single forward pass replacing any
Command token found in the map by the tokenization of its expansion (a
failed tokenization silently drops the token, as in the Rust `if let Ok`). -/
def passExpandCustomTexMacros (tokens : List TexToken)
    (customTexMacros : List (String × String)) : List TexToken :=
  match tokens with
  | [] => []
  | t :: rest =>
    if t.token_type = .Command then
      match (customTexMacros.find? fun pr => pr.1 = t.value) with
      | some pr =>
        (match tokenize pr.2 with
          | .ok expanded => expanded
          | _ => []) ++ passExpandCustomTexMacros rest customTexMacros
      | none => t :: passExpandCustomTexMacros rest customTexMacros
    else
      t :: passExpandCustomTexMacros rest customTexMacros

/-- The parser fuel used by the public entry points; generously above the
recursion depth any token list of this length can force. -/
def parserFuel (toks : List TexToken) : Nat := 4 * toks.length + 16

/-- `parse_tex`: tokenize, the two passes, then a space/newline-insensitive
parse (`lib.rs` invokes it with no custom macros). -/
def parseTex (tex : String) (customTexMacros : List (String × String)) :
    Except Failure TexNode := do
  let toks ← tokenize tex
  let toks1 := passIgnoreWhitespaceBeforeScriptMark toks
  let toks2 := passExpandCustomTexMacros toks1 customTexMacros
  parse (parserFuel toks2) (LatexParser.mk false false) toks2

end TexParser

/-- The target AST (`TypstNode` of `definitions.rs`), modelled like `TexNode`
as a tagged variant per `TypstNodeType` carrying the payload fields the code
reads for that variant; the optional `args`/`options` of `Group`, `FuncCall`
and `Matrix` are the plain lists the converter always supplies (an absent
options map and an empty list are iterated identically), and the `HashMap`
of named options is a key-value list (it never holds more than one entry). -/
inductive TypstNode where
  | empty
  | atom (content : String)
  | symbol (content : String)
  | text (content : String)
  | comment (content : String)
  | whitespace (content : String)
  | noBreakSpace (content : String)
  | group (args : List TypstNode)
  | supsub (base : TypstNode) (sub : Option TypstNode) (sup : Option TypstNode)
  | funcCall (name : String) (args : List TypstNode) (options : List (String × String))
  | fraction (num : TypstNode) (den : TypstNode)
  | align (grid : List (List TypstNode))
  | matrix (grid : List (List TypstNode)) (options : List (String × String))
  | unknown (content : String)
deriving Repr

/-- The `content` field of the Rust `TexNode` struct, recovered from the
variant encoding (function-like variants store the command name there; the
grouping variants carry the empty string exactly as built by the parser). -/
def texContentOf : TexNode → String
  | .element c => c
  | .text c => c
  | .comment c => c
  | .whitespace c => c
  | .noBreakSpace c => c
  | .control c => c
  | .unknown c => c
  | .symbol c => c
  | .unknownMacro c => c
  | .unaryFunc n _ _ => n
  | .binaryFunc n _ _ => n
  | .optionBinaryFunc n _ => n
  | .beginEnd n _ => n
  | .ordgroup _ => ""
  | .supsub _ _ _ => ""
  | .leftright _ _ _ => ""
  | .empty => ""

/-- `TYPST_INTRINSIC_SYMBOLS` of `converter.rs`. -/
def TYPST_INTRINSIC_SYMBOLS : List String :=
  ["dim", "id", "im", "mod", "Pr", "sech", "csch"]

/-- `convert_token` of `converter.rs` (alphanumeric contents pass through, a
fixed punctuation set is respelled, any other escaped name is looked up in
the symbol table with fallback to the bare name). -/
def convert_token (token : String) : String :=
  if token.data.all Char.isAlphanum then token
  else if token = "/" then "\\/"
  else if token = "\\|" then "parallel"
  else if token = "\\\\" then "\\"
  else if token ∈ ["\\$", "\\#", "\\&", "\\_"] then token
  else if backslashStr.data.isPrefixOf token.data then
    let symbol := token.drop 1
    match SYMBOL_MAP.find? fun pr => pr.1 = symbol with
    | some pr => pr.2
    | none => symbol
  else token

/-- The canonical "invisible in target" delimiter pairs of the `Leftright`
rewrite in `convert_tree`. -/
def invisiblePairs : List (String × String) :=
  [("[", "]"), ("(", ")"),
   (backslashStr ++ lbraceStr, backslashStr ++ rbraceStr),
   ("\\lfloor", "\\rfloor"), ("\\lceil", "\\rceil"), ("\\lfloor", "\\rceil")]

/-- The `is_def` closure of `convert_overset`: the literal Text "def" or a
three-element group spelling d, e, f. -/
def isDefNode : TexNode → Bool
  | .text s => s = "def"
  | .ordgroup [.element a, .element b, .element c] => a = "d" ∧ b = "e" ∧ c = "f"
  | _ => false

/-- The `is_eq` closure of `convert_overset`. -/
def isEqNode : TexNode → Bool
  | .element v => v = "="
  | _ => false

/-- The `\mathbb` guard in `convert_tree`: the converted argument is an Atom
whose content is all ASCII uppercase. -/
def isUppercaseAtom : TypstNode → Bool
  | .atom c => c.data.all Char.isUpper
  | _ => false

mutual

/-- `convert_tree` of `converter.rs`. -/
def convertTree (fuel : Nat) (node : TexNode) : Except Failure TypstNode :=
  match fuel with
  | 0 => .error .fuel
  | f + 1 =>
    match node with
    | .empty => .ok .empty
    | .whitespace c => .ok (.whitespace c)
    | .noBreakSpace c => .ok (.noBreakSpace c)
    | .ordgroup args => (convertList f args).map .group
    | .element c => .ok (.atom (convert_token c))
    | .symbol c => .ok (.symbol (convert_token c))
    | .text c => .ok (.text c)
    | .comment c => .ok (.comment c)
    | .supsub base sub sup =>
      match base with
      | .unaryFunc bname barg _ =>
        if bname = "\\overbrace" then
          match sup with
          | some supNode => do
            let a ← convertTree f barg
            let s ← convertTree f supNode
            .ok (.funcCall "overbrace" [a, s] [])
          | none => convertSupsubDefault f base sub sup
        else if bname = "\\underbrace" then
          match sub with
          | some subNode => do
            let a ← convertTree f barg
            let s ← convertTree f subNode
            .ok (.funcCall "underbrace" [a, s] [])
          | none => convertSupsubDefault f base sub sup
        else
          convertSupsubDefault f base sub sup
      | _ => convertSupsubDefault f base sub sup
    | .leftright l body r => do
      let lT ← convertTree f l
      let bT ← convertTree f body
      let rT ← convertTree f r
      let lc := texContentOf l
      let rc := texContentOf r
      if (lc, rc) ∈ invisiblePairs then
        .ok (.group [lT, bT, rT])
      else if rc = "." then
        .ok (.group [lT, bT])
      else if lc = "." then
        .ok (.funcCall "lr" [.group [bT, rT]] [])
      else
        .ok (.funcCall "lr" [.group [lT, bT, rT]] [])
    | .optionBinaryFunc name args =>
      if name = "\\sqrt" then
        match args with
        | [m] => (convertTree f m).map fun mT => .funcCall "sqrt" [mT] []
        | [o, m] => do
          let oT ← convertTree f o
          let mT ← convertTree f m
          .ok (.funcCall "root" [oT, mT] [])
        | _ =>
          .error (.err ("Invalid number of arguments for \\sqrt: " ++
            toString args.length))
      else
        .error (.err ("Unknown option binary function: " ++ name))
    | .binaryFunc name a b =>
      if name = "\\overset" then
        convertOverset f a b
      else if name = "\\frac" then do
        let n ← convertTree f a
        let d ← convertTree f b
        .ok (.fraction n d)
      else do
        let n ← convertTree f a
        let d ← convertTree f b
        .ok (.funcCall (convert_token name) [n, d] [])
    | .unaryFunc name arg _ => do
      let a0 ← convertTree f arg
      if name = "\\mathbf" then
        .ok (.funcCall "upright" [.funcCall "bold" [a0] []] [])
      else if name = "\\mathbb" ∧ isUppercaseAtom a0 = true then
        match a0 with
        | .atom c => .ok (.symbol (c ++ c))
        | _ => .error (.panic "unreachable")
      else if name = "\\operatorname" then
        match arg with
        | .text s =>
          if s ∈ TYPST_INTRINSIC_SYMBOLS then .ok (.symbol s)
          else .ok (.funcCall "op" [.text s] [])
        | _ => .error (.err "Expecting body of \\operatorname to be text")
      else
        .ok (.funcCall (convert_token name) [a0] [])
    | .beginEnd name grid => do
      let data ← convertGrid f grid
      if ("align".data).isPrefixOf name.data then
        .ok (.align data)
      else
        .ok (.matrix data [("delim", "#none")])
    | .unknownMacro c => .ok (.unknown (convert_token c))
    | .control c =>
      if c = "\\\\" then .ok (.symbol "\\")
      else if c = "\\," then .ok (.symbol "thin")
      else .error (.err ("Unknown control sequence: " ++ c))
    | .unknown c => .ok (.unknown (convert_token c))

/-- The generic `SupSub` conversion (an `Empty` base is replaced by an empty
Text node). -/
def convertSupsubDefault (fuel : Nat) (base : TexNode) (sub sup : Option TexNode) :
    Except Failure TypstNode :=
  match fuel with
  | 0 => .error .fuel
  | f + 1 => do
    let baseT0 ← convertTree f base
    let baseT := match baseT0 with
      | .empty => TypstNode.text ""
      | other => other
    let supT ← match sup with
      | some s => (convertTree f s).map some
      | none => pure none
    let subT ← match sub with
      | some s => (convertTree f s).map some
      | none => pure none
    .ok (.supsub baseT subT supT)

/-- `convert_overset` (`sup` is `args[0]`, `base` is `args[1]`). -/
def convertOverset (fuel : Nat) (sup base : TexNode) : Except Failure TypstNode :=
  match fuel with
  | 0 => .error .fuel
  | f + 1 =>
    if isDefNode sup ∧ isEqNode base then
      .ok (.symbol "eq.def")
    else do
      let bT ← convertTree f base
      let sT ← convertTree f sup
      .ok (.supsub (.funcCall "op" [bT] [("limits", "true")]) none (some sT))

def convertList (fuel : Nat) (nodes : List TexNode) :
    Except Failure (List TypstNode) :=
  match fuel with
  | 0 => .error .fuel
  | f + 1 =>
    match nodes with
    | [] => .ok []
    | n :: rest => do
      let nT ← convertTree f n
      let restT ← convertList f rest
      .ok (nT :: restT)

def convertGrid (fuel : Nat) (grid : List (List TexNode)) :
    Except Failure (List (List TypstNode)) :=
  match fuel with
  | 0 => .error .fuel
  | f + 1 =>
    match grid with
    | [] => .ok []
    | row :: rest => do
      let rowT ← convertList f row
      let restT ← convertGrid f rest
      .ok (rowT :: restT)

end

/-- Token kinds of the target language. -/
inductive TypstTokenType where
  | Symbol
  | Element
  | Text
  | Comment
  | Control
deriving DecidableEq, Repr

/-- `TypstToken` of `definitions.rs`. -/
structure TypstToken where
  token_type : TypstTokenType
  value : String
deriving DecidableEq, Repr

/-- `TypstToken::to_string`. -/
def typstTokenToString (t : TypstToken) : String :=
  match t.token_type with
  | .Text => "\"" ++ t.value ++ "\""
  | .Comment => "//" ++ t.value
  | _ => t.value

def TYPST_LEFT_PARENTHESIS : TypstToken := ⟨.Element, "("⟩

def TYPST_RIGHT_PARENTHESIS : TypstToken := ⟨.Element, ")"⟩

def TYPST_COMMA : TypstToken := ⟨.Element, ","⟩

def TYPST_NEWLINE : TypstToken := ⟨.Symbol, "\n"⟩

/-- The mutable state of `TypstWriter`. -/
structure TypstWriterState where
  buffer : String
  queue : List TypstToken
  insideFunctionDepth : Nat
deriving Repr

/-- `TypstWriter::new`. -/
def newTypstWriter : TypstWriterState := ⟨"", [], 0⟩

/-- Rust `str::ends_with` with a character predicate. -/
def strEndsWithPred (s : String) (p : Char → Bool) : Bool :=
  match s.data.getLast? with
  | some c => p c
  | none => false

/-- Rust `str::starts_with` with a character predicate. -/
def strStartsWithPred (s : String) (p : Char → Bool) : Bool :=
  match s.data.head? with
  | some c => p c
  | none => false

/-- `TypstWriter::write_buffer`: append one rendered token to the buffer,
inserting a separating space unless one of the adjacency rules applies. -/
def writeBuffer (w : TypstWriterState) (tok : TypstToken) : TypstWriterState :=
  let newStr := typstTokenToString tok
  if newStr = "" then w
  else
    let buf := w.buffer
    let noNeedSpace :=
      (strEndsWithPred buf (fun c => c = '(' ∨ c = '[' ∨ c = '|')
        && strStartsWithPred newStr Char.isAlphanum)
      || strStartsWithPred newStr (fun c => c = ')' ∨ c = rbrace ∨ c = ']' ∨ c = '|')
      || (!strEndsWithPred buf (fun c => c = '=') && strStartsWithPred newStr (fun c => c = '('))
      || strStartsWithPred newStr
          (fun c => c = '(' ∨ c = '_' ∨ c = '^' ∨ c = ',' ∨ c = ';' ∨ c = '!')
      || newStr = primeStr
      || (strEndsWithPred buf Char.isDigit && strStartsWithPred newStr Char.isDigit)
      || ((strEndsWithPred buf (fun c => c = '(' ∨ c = '[' ∨ c = lbrace)
            && strStartsWithPred newStr (fun c => c = '-' ∨ c = '+'))
          || buf = "-" || buf = "+")
      || strStartsWithPred newStr (fun c => c = '\n')
      || buf = ""
      || strStartsWithPred newStr Char.isWhitespace
      || (strEndsWithPred buf (fun c => c = '&') && newStr = "=")
      || (strEndsWithPred buf (fun c => c = '/') || strStartsWithPred newStr (fun c => c = '/'))
      || strEndsWithPred buf (fun c => c = ' ' ∨ c = '_' ∨ c = '^' ∨ c = lbrace ∨ c = '(')
    let buf2 := if noNeedSpace then buf else buf ++ " "
    { w with buffer := buf2 ++ newStr }

/-- `is_delimiter` of `typst_writer.rs`. -/
def isDelimiterT (n : TypstNode) : Bool :=
  match n with
  | .atom c =>
    c ∈ ["(", ")", "[", "]", lbraceStr, rbraceStr, "|", "⌊", "⌋", "⌈", "⌉"]
  | _ => false

/-- Push a token onto the queue. -/
def pushQ (w : TypstWriterState) (t : TypstToken) : TypstWriterState :=
  { w with queue := w.queue ++ [t] }

/-- The `has_prime` test of the Supsub arm of `serialize`. -/
def isPrimeAtom (sup : Option TypstNode) : Bool :=
  match sup with
  | some (.atom c) => c == primeStr
  | _ => false

mutual

/-- `TypstWriter::serialize`: append the tokens of a node to the queue,
tracking `inside_function_depth` across `FuncCall` and `Matrix` openings. -/
def serialize (fuel : Nat) (node : TypstNode) (w : TypstWriterState) :
    Except Failure TypstWriterState :=
  match fuel with
  | 0 => .error .fuel
  | f + 1 =>
    match node with
    | .empty => .ok w
    | .atom content =>
      if content = "," ∧ w.insideFunctionDepth > 0 then
        .ok (pushQ w ⟨.Symbol, "comma"⟩)
      else
        .ok (pushQ w ⟨.Element, content⟩)
    | .symbol content => .ok (pushQ w ⟨.Symbol, content⟩)
    | .text content => .ok (pushQ w ⟨.Text, content⟩)
    | .comment content => .ok (pushQ w ⟨.Comment, content⟩)
    | .whitespace content => serializeWhitespaceChars content.data w
    | .noBreakSpace _ => .ok (pushQ w ⟨.Symbol, "space.nobreak"⟩)
    | .group args => serializeSeq f args w
    | .supsub base sub sup => do
      let (w1, _) ← appendWithBracketsIfNeeded f base w
      let hasPrime : Bool := isPrimeAtom sup
      let w2 := if hasPrime then pushQ w1 ⟨.Element, primeStr⟩ else w1
      let (w3, trailing1) ←
        match sub with
        | some subNode => do
          let (wa, tr) ← appendWithBracketsIfNeeded f subNode (pushQ w2 ⟨.Element, "_"⟩)
          pure (wa, tr)
        | none => pure (w2, false)
      let (w4, trailing2) ←
        match sup with
        | some supNode =>
          if hasPrime then pure (w3, trailing1)
          else do
            let (wa, tr) ← appendWithBracketsIfNeeded f supNode (pushQ w3 ⟨.Element, "^"⟩)
            pure (wa, tr)
        | none => pure (w3, trailing1)
      let trailing := match sup with
        | some _ => if hasPrime then trailing1 else trailing2
        | none => trailing1
      if trailing then .ok (pushQ w4 ⟨.Control, " "⟩) else .ok w4
    | .funcCall name args options => do
      let w1 := pushQ (pushQ w ⟨.Symbol, name⟩) TYPST_LEFT_PARENTHESIS
      let w1 := { w1 with insideFunctionDepth := w1.insideFunctionDepth + 1 }
      let w2 ← serializeArgs f args w1
      let w3 := options.foldl
        (fun acc kv => pushQ acc ⟨.Symbol, ", " ++ kv.1 ++ ": " ++ kv.2⟩) w2
      let w4 := pushQ w3 TYPST_RIGHT_PARENTHESIS
      .ok { w4 with insideFunctionDepth := w4.insideFunctionDepth - 1 }
    | .fraction num den => do
      let w1 ← smartParenthesis f num w
      let w2 := pushQ w1 ⟨.Symbol, "/"⟩
      smartParenthesis f den w2
    | .align grid => serializeAlignRows f grid w
    | .matrix grid options => do
      let w1 := pushQ (pushQ w ⟨.Symbol, "mat"⟩) TYPST_LEFT_PARENTHESIS
      let w1 := { w1 with insideFunctionDepth := w1.insideFunctionDepth + 1 }
      let w1 := options.foldl
        (fun acc kv => pushQ acc ⟨.Symbol, kv.1 ++ ": " ++ kv.2 ++ ", "⟩) w1
      let w2 ← serializeMatrixRows f grid w1
      let w3 := pushQ w2 TYPST_RIGHT_PARENTHESIS
      .ok { w3 with insideFunctionDepth := w3.insideFunctionDepth - 1 }
    | .unknown content => .ok (pushQ w ⟨.Symbol, content⟩)

/-- The Whitespace case: spaces are dropped, newlines become Symbol tokens,
any other character is an error. -/
def serializeWhitespaceChars (cs : List Char) (w : TypstWriterState) :
    Except Failure TypstWriterState :=
  match cs with
  | [] => .ok w
  | c :: rest =>
    if c = ' ' then serializeWhitespaceChars rest w
    else if c = '\n' then serializeWhitespaceChars rest (pushQ w ⟨.Symbol, "\n"⟩)
    else .error (.err ("Unexpected whitespace character: " ++ String.mk [c]))

/-- The plain child loop of `Group` (no separators). -/
def serializeSeq (fuel : Nat) (args : List TypstNode) (w : TypstWriterState) :
    Except Failure TypstWriterState :=
  match fuel with
  | 0 => .error .fuel
  | f + 1 =>
    match args with
    | [] => .ok w
    | a :: rest => do
      let w1 ← serialize f a w
      serializeSeq f rest w1

/-- The argument loop of `FuncCall` (a comma Element between arguments). -/
def serializeArgs (fuel : Nat) (args : List TypstNode) (w : TypstWriterState) :
    Except Failure TypstWriterState :=
  match fuel with
  | 0 => .error .fuel
  | f + 1 =>
    match args with
    | [] => .ok w
    | [a] => serialize f a w
    | a :: rest => do
      let w1 ← serialize f a w
      serializeArgs f rest (pushQ w1 ⟨.Element, ","⟩)

/-- The row loop of `Align` (`&` between cells, a `\\` Symbol between rows). -/
def serializeAlignRows (fuel : Nat) (grid : List (List TypstNode)) (w : TypstWriterState) :
    Except Failure TypstWriterState :=
  match fuel with
  | 0 => .error .fuel
  | f + 1 =>
    match grid with
    | [] => .ok w
    | [row] => serializeAlignCells f row true w
    | row :: rest => do
      let w1 ← serializeAlignCells f row true w
      serializeAlignRows f rest (pushQ w1 ⟨.Symbol, "\\"⟩)

def serializeAlignCells (fuel : Nat) (row : List TypstNode) (first : Bool)
    (w : TypstWriterState) : Except Failure TypstWriterState :=
  match fuel with
  | 0 => .error .fuel
  | f + 1 =>
    match row with
    | [] => .ok w
    | cell :: rest => do
      let w0 := if first then w else pushQ w ⟨.Element, "&"⟩
      let w1 ← serialize f cell w0
      serializeAlignCells f rest false w1

/-- The row loop of `Matrix` (a `,` after each non-final cell of a row, a `;`
after the final cell of each non-final row, nothing after an empty row). -/
def serializeMatrixRows (fuel : Nat) (grid : List (List TypstNode)) (w : TypstWriterState) :
    Except Failure TypstWriterState :=
  match fuel with
  | 0 => .error .fuel
  | f + 1 =>
    match grid with
    | [] => .ok w
    | [row] => serializeMatrixCells f row true w
    | row :: rest => do
      let w1 ← serializeMatrixCells f row false w
      serializeMatrixRows f rest w1

def serializeMatrixCells (fuel : Nat) (row : List TypstNode) (lastRow : Bool)
    (w : TypstWriterState) : Except Failure TypstWriterState :=
  match fuel with
  | 0 => .error .fuel
  | f + 1 =>
    match row with
    | [] => .ok w
    | [cell] => do
      let w1 ← serialize f cell w
      if lastRow then .ok w1 else .ok (pushQ w1 ⟨.Element, ";"⟩)
    | cell :: rest => do
      let w1 ← serialize f cell w
      serializeMatrixCells f rest lastRow (pushQ w1 ⟨.Element, ","⟩)

/-- `smart_parenthesis`: parenthesize a Group operand of a fraction. -/
def smartParenthesis (fuel : Nat) (node : TypstNode) (w : TypstWriterState) :
    Except Failure TypstWriterState :=
  match fuel with
  | 0 => .error .fuel
  | f + 1 =>
    match node with
    | .group args => do
      let w1 ← serialize f (.group args) (pushQ w TYPST_LEFT_PARENTHESIS)
      .ok (pushQ w1 TYPST_RIGHT_PARENTHESIS)
    | other => serialize f other w

/-- `append_with_brackets_if_needed`: wrap a Group/Supsub/Empty node in
parentheses — except a Group already fenced by delimiter atoms on both ends —
returning `!need_to_wrap` (an empty Group mirrors the Rust `&args[0]`
out-of-bounds panic). -/
def appendWithBracketsIfNeeded (fuel : Nat) (node : TypstNode) (w : TypstWriterState) :
    Except Failure (TypstWriterState × Bool) :=
  match fuel with
  | 0 => .error .fuel
  | f + 1 => do
    let needWrap ←
      match node with
      | .group args =>
        match args with
        | [] => .error (.panic "index out of bounds")
        | a :: rest =>
          let last := rest.getLast? |>.getD a
          if isDelimiterT a ∧ isDelimiterT last then pure false else pure true
      | .supsub _ _ _ => pure true
      | .empty => pure true
      | _ => pure false
    if needWrap then do
      let w1 ← serialize f node (pushQ w TYPST_LEFT_PARENTHESIS)
      .ok (pushQ w1 TYPST_RIGHT_PARENTHESIS, !needWrap)
    else do
      let w1 ← serialize f node w
      .ok (w1, !needWrap)

end

/-- The soft-space cleanup of `flush_queue`: a Control-space token is blanked
when it is last or directly precedes `)`, `,` or a newline Symbol. -/
def cleanSoftSpaces : List TypstToken → List TypstToken
  | [] => []
  | t :: rest =>
    if t = ⟨.Control, " "⟩ then
      let kill : Bool := match rest.head? with
        | none => true
        | some nxt =>
          nxt == TYPST_RIGHT_PARENTHESIS || nxt == TYPST_COMMA || nxt == TYPST_NEWLINE
      if kill then ⟨.Control, ""⟩ :: cleanSoftSpaces rest
      else t :: cleanSoftSpaces rest
    else t :: cleanSoftSpaces rest

/-- `flush_queue`: blank the dispensable soft spaces, then render every queued
token into the buffer. -/
def flushQueue (w : TypstWriterState) : TypstWriterState :=
  let toks := cleanSoftSpaces w.queue
  toks.foldl writeBuffer { w with queue := [] }

/-- Leading and trailing Unicode whitespace removed (Rust `str::trim`). -/
def trimWsChars (cs : List Char) : List Char :=
  ((cs.dropWhile Char.isWhitespace).reverse.dropWhile Char.isWhitespace).reverse

/-- Whether the span between the two delimiter spellings can be matched by
`\s*(.*?)\s*` (the lazy group cannot cross a newline, the whitespace runs
can): its whitespace-trimmed core must be newline-free. -/
def betweenValid (between : List Char) : Bool :=
  !(trimWsChars between).contains '\n'

/-- Find the earliest end of a canonicalization match: the first occurrence of
`rightLit` such that the characters before it form a valid between-span;
returns the raw between-span and the characters after `rightLit`. -/
def findPassEnd (rightLit : List Char) (acc : List Char) :
    List Char → Option (List Char × List Char)
  | [] => none
  | c :: rest =>
    if rightLit.isPrefixOf (c :: rest) ∧ betweenValid acc.reverse = true then
      some (acc.reverse, (c :: rest).drop rightLit.length)
    else
      findPassEnd rightLit (c :: acc) rest

/-- One canonicalization pass (`smart_floor_pass` and friends): replace every
`leftLit …​ rightLit` match by `fname(core)` where `core` is the trimmed
captured span, scanning left to right and not rescanning replacements. -/
def smartPassGo (fuel : Nat) (leftLit rightLit fname : List Char) (cs : List Char) :
    List Char :=
  match fuel with
  | 0 => cs
  | f + 1 =>
    match cs with
    | [] => []
    | c :: rest =>
      if leftLit.isPrefixOf (c :: rest) then
        match findPassEnd rightLit [] ((c :: rest).drop leftLit.length) with
        | some (between, after) =>
          fname ++ '(' :: (trimWsChars between ++ ')' :: smartPassGo f leftLit rightLit fname after)
        | none => c :: smartPassGo f leftLit rightLit fname rest
      else
        c :: smartPassGo f leftLit rightLit fname rest

/-- A full canonicalization pass including the `fname()` → `fname("")`
rewrite that follows it in `finalize`. -/
def smartPassStr (leftLit rightLit fname : String) (s : String) : String :=
  let out := String.mk (smartPassGo (s.data.length + 1) leftLit.data rightLit.data fname.data s.data)
  rustReplace out (fname ++ "()") (fname ++ "(\"\")")

def smartFloorPass (s : String) : String := smartPassStr "floor.l" "floor.r" "floor" s

def smartCeilPass (s : String) : String := smartPassStr "ceil.l" "ceil.r" "ceil" s

def smartRoundPass (s : String) : String := smartPassStr "floor.l" "ceil.r" "round" s

/-- `TypstWriter::finalize`: render the queue and run the three ordered
canonicalization passes over the finished text. -/
def finalize (w : TypstWriterState) : Except Failure String :=
  let w2 := flushQueue w
  .ok (smartRoundPass (smartCeilPass (smartFloorPass w2.buffer)))

/-- `tex2typst` of `lib.rs`: the full pipeline with no custom macros (the
tree-stage fuel is generously above the depth any input of this length can
force). -/
def tex2typst (tex : String) : Except Failure String := do
  let texTree ← TexParser.parseTex tex []
  let pipelineFuel := 4 * tex.data.length + 64
  let typstTree ← convertTree pipelineFuel texTree
  let w ← serialize pipelineFuel typstTree newTypstWriter
  finalize w

/-- The inline-span matcher `\\\((.+?)\\\)`: at the current position, a `\(`,
then the shortest nonempty newline-free interior followed by `\)`. -/
def goInlineSpan (acc : List Char) : List Char → Option (List Char × List Char)
  | [] => none
  | c :: rest =>
    if ['\\', ')'].isPrefixOf (c :: rest) ∧ acc ≠ [] then
      some (acc.reverse, (c :: rest).drop 2)
    else if c = '\n' then none
    else goInlineSpan (c :: acc) rest

def tryInlineSpan (cs : List Char) : Option (List Char × List Char) :=
  match cs with
  | '\\' :: '(' :: rest => goInlineSpan [] rest
  | _ => none

/-- The display-span matcher `(?s)\\\[(.+?)\\\]`: like the inline one but
bracketed and allowed to cross newlines. -/
def goDisplaySpan (acc : List Char) : List Char → Option (List Char × List Char)
  | [] => none
  | c :: rest =>
    if ['\\', ']'].isPrefixOf (c :: rest) ∧ acc ≠ [] then
      some (acc.reverse, (c :: rest).drop 2)
    else goDisplaySpan (c :: acc) rest

def tryDisplaySpan (cs : List Char) : Option (List Char × List Char) :=
  match cs with
  | '\\' :: '[' :: rest => goDisplaySpan [] rest
  | _ => none

/-- The leftmost-first search of `captures_iter`: preceding text, whether the
span is inline, the interior, and the rest of the document. -/
def findSpan : List Char → Option (List Char × Bool × List Char × List Char)
  | [] => none
  | c :: rest =>
    match tryInlineSpan (c :: rest) with
    | some (int, after) => some ([], true, int, after)
    | none =>
      match tryDisplaySpan (c :: rest) with
      | some (int, after) => some ([], false, int, after)
      | none =>
        (findSpan rest).map fun q => (c :: q.1, q.2.1, q.2.2.1, q.2.2.2)

/-- Rust `str::trim`. -/
def rustTrim (s : String) : String := String.mk (trimWsChars s.data)

/-- The match-replace loop of `replace_all` specialized to the replacement
closure of `text_and_tex2typst`: inline spans become `$…$`, display spans
`$\n…\n$`, the interiors converted by `tex2typst` after trimming, the first
failure aborting the whole call. -/
def textAndTex2typstGo (fuel : Nat) (cs : List Char) : Except Failure (List Char) :=
  match fuel with
  | 0 => .error .fuel
  | f + 1 =>
    match findSpan cs with
    | none => .ok cs
    | some (pre, isInline, interior, rest) => do
      let conv ← tex2typst (rustTrim (String.mk interior))
      let rep := if isInline then "$" ++ conv ++ "$" else "$\n" ++ conv ++ "\n$"
      let tail ← textAndTex2typstGo f rest
      .ok (pre ++ rep.data ++ tail)

/-- `text_and_tex2typst` of `lib.rs`. -/
def text_and_tex2typst (input : String) : Except Failure String :=
  (textAndTex2typstGo (input.data.length + 1) input.data).map String.mk

/-- `CommandType` of `command_registry.rs`. -/
inductive CommandType where
  | Symbol
  | Unary
  | Binary
  | OptionalUnary
  | OptionalBinary
deriving DecidableEq, Repr

/-- A registered custom macro.  The Rust `CustomMacro` stores a boxed closure
built by `construct_custom_macro`; that constructor is the only producer in
the pipeline, so the closure is defunctionalized into the data it captures
(argument count, optional default, body template), interpreted by
`runCustomMacroImpl`. -/
structure CustomMacroData where
  name : String
  command_type : CommandType
  numOfArgs : Nat
  defaultValue : Option String
  definition : String
deriving DecidableEq, Repr

/-- The validation logic of `construct_custom_macro` (argument-count bounds,
default only with arguments), yielding the macro data. -/
def constructCustomMacroData (name : String) (numOfArgs : Nat)
    (defaultValue : Option String) (definition : String) :
    Except Failure CustomMacroData :=
  match defaultValue with
  | some _ =>
    match numOfArgs with
    | 0 => .error (.err "Default value provided for a command with no arguments")
    | 1 => .ok ⟨name, .OptionalUnary, 1, defaultValue, definition⟩
    | 2 => .ok ⟨name, .OptionalBinary, 2, defaultValue, definition⟩
    | _ => .error (.err "Only unary and binary commands are supported")
  | none =>
    match numOfArgs with
    | 0 => .ok ⟨name, .Symbol, 0, none, definition⟩
    | 1 => .ok ⟨name, .Unary, 1, none, definition⟩
    | 2 => .ok ⟨name, .Binary, 2, none, definition⟩
    | _ => .error (.err "Only unary and binary commands are supported")

/-- `args[i].iter().map(|t| t.value).collect::<String>()`. -/
def stringifyTokens (ts : List TexToken) : String :=
  ts.foldl (fun acc t => acc ++ t.value) ""

/-- The closure stored by `construct_custom_macro`: substitute `#1`/`#2` with
the stringified captured tokens (or the default), then re-tokenize. -/
def runCustomMacroImpl (m : CustomMacroData) (args : List (List TexToken)) :
    Except Failure (List TexToken) :=
  match m.command_type, m.defaultValue with
  | .OptionalUnary, some dv =>
    if args.isEmpty then
      TexTokenizer.tokenize (rustReplace m.definition "#1" dv)
    else
      TexTokenizer.tokenize
        (rustReplace m.definition "#1" (stringifyTokens (args.headD [])))
  | .OptionalBinary, some dv =>
    match args with
    | [a] =>
      TexTokenizer.tokenize
        (rustReplace (rustReplace m.definition "#1" dv) "#2" (stringifyTokens a))
    | [a, b] =>
      TexTokenizer.tokenize
        (rustReplace (rustReplace m.definition "#1" (stringifyTokens a)) "#2"
          (stringifyTokens b))
    | _ => .error (.err "Expecting one or two arguments")
  | .Symbol, _ => TexTokenizer.tokenize m.definition
  | .Unary, _ =>
    match args with
    | a :: _ => TexTokenizer.tokenize (rustReplace m.definition "#1" (stringifyTokens a))
    | [] => .error (.panic "index out of bounds")
  | .Binary, _ =>
    match args with
    | a :: b :: _ =>
      TexTokenizer.tokenize
        (rustReplace (rustReplace m.definition "#1" (stringifyTokens a)) "#2"
          (stringifyTokens b))
    | _ => .error (.panic "index out of bounds")
  | .OptionalUnary, none => .error (.panic "missing default value")
  | .OptionalBinary, none => .error (.panic "missing default value")

/-- `CommandRegistry` (the name-to-arity map only serves `get_command_type`,
which no claim exercises). -/
structure CommandRegistry where
  customMacros : List CustomMacroData
deriving Repr

/-- Rust `tokens[pos..].iter().position(|token| token.value == v)` followed by
the split it induces: the tokens before the first token with value `v` and
the tokens after it (the optional-argument capture is not depth-matched). -/
def splitAtFirstValue (toks : List TexToken) (v : String) :
    Option (List TexToken × List TexToken) :=
  match toks with
  | [] => none
  | t :: rest =>
    if t.value = v then some ([], rest)
    else (splitAtFirstValue rest v).map fun p => (t :: p.1, p.2)

/-- The depth scan of `find_matching_right_curly_bracket_token`, over the
tokens after the scan start (values `"{"`/`"}"` drive the depth, a `"\\"`
value directly before a `"}"` skips both). -/
def goCurlyToken (count : Nat) : List TexToken → Option (List TexToken × List TexToken)
  | [] => none
  | t :: rest =>
    if t.value = backslashStr ∧ (rest.head?.map TexToken.value) = some rbraceStr then
      match rest with
      | u :: rest2 =>
        (goCurlyToken count rest2).map fun p => (t :: u :: p.1, p.2)
      | [] => none
    else if t.value = lbraceStr then
      (goCurlyToken (count + 1) rest).map fun p => (t :: p.1, p.2)
    else if t.value = rbraceStr then
      if count = 1 then some ([], rest)
      else (goCurlyToken (count - 1) rest).map fun p => (t :: p.1, p.2)
    else
      (goCurlyToken count rest).map fun p => (t :: p.1, p.2)

/-- `find_matching_right_curly_bracket_token`, applied to the tokens from the
scan start (the first token inside the braces): the Rust function starts its
scan at `start + 1` with depth 1, so that first token is taken verbatim and
never examined — `{}` is reported unmatched and a `{` as first inside token
does not deepen the count.  Returns the argument span and the tokens after
the closing `}` (Rust's `pos - 1` split), or `none`. -/
def findMatchingRightCurlyToken (toks : List TexToken) :
    Option (List TexToken × List TexToken) :=
  match toks with
  | [] => none
  | t :: rest => (goCurlyToken 1 rest).map fun p => (t :: p.1, p.2)

mutual

/-- `CommandRegistry::expand_macros`: a single forward pass; a Command token
naming a registered macro is replaced by its expansion, everything else is
copied. -/
def expandMacros (fuel : Nat) (reg : CommandRegistry) (tokens : List TexToken) :
    Except Failure (List TexToken) :=
  match fuel with
  | 0 => .error .fuel
  | f + 1 =>
    match tokens with
    | [] => .ok []
    | t :: rest =>
      if t.token_type = .Command then
        match reg.customMacros.find? fun m => m.name = t.value with
        | some m => do
          let (expanded, restAfter) ← expandCommand f reg m (t :: rest)
          let tail ← expandMacros f reg restAfter
          .ok (expanded ++ tail)
        | none => (expandMacros f reg rest).map fun l => t :: l
      else
        (expandMacros f reg rest).map fun l => t :: l

/-- `CommandRegistry::expand_command`: capture the arguments according to the
macro's arity kind, recursively expanding each captured span, then run the
macro's substitution closure; returns the expansion and the remaining
tokens. -/
def expandCommand (fuel : Nat) (reg : CommandRegistry) (m : CustomMacroData)
    (toks : List TexToken) : Except Failure (List TexToken × List TexToken) :=
  match fuel with
  | 0 => .error .fuel
  | f + 1 =>
    match toks with
    | [] => .error (.panic "index out of bounds")
    | _ :: rest =>
      match m.command_type with
      | .Symbol => do
        let expanded ← runCustomMacroImpl m []
        .ok (expanded, rest)
      | .Unary =>
        match rest with
        | [] => .error (.panic "index out of bounds")
        | u :: rest2 =>
          if u.value ≠ lbraceStr then
            .error (.err ("Expecting one argument for command " ++ m.name))
          else
            match findMatchingRightCurlyToken rest2 with
            | some (argToks, after) => do
              let argExp ← expandMacros f reg argToks
              let expanded ← runCustomMacroImpl m [argExp]
              .ok (expanded, after)
            | none => .error (.err ("Unmatched curly brackets for command " ++ m.name))
      | .Binary =>
        match rest with
        | [] => .error (.panic "index out of bounds")
        | u :: rest2 =>
          if u.value ≠ lbraceStr then
            .error (.err ("No argument provided for command " ++ m.name))
          else
            match findMatchingRightCurlyToken rest2 with
            | some (arg1Toks, after1) => do
              let arg1Exp ← expandMacros f reg arg1Toks
              match after1 with
              | [] => .error (.panic "index out of bounds")
              | v :: rest3 =>
                if v.value ≠ lbraceStr then
                  .error (.err ("Expecting two arguments for command " ++ m.name))
                else
                  match findMatchingRightCurlyToken rest3 with
                  | some (arg2Toks, after2) => do
                    let arg2Exp ← expandMacros f reg arg2Toks
                    let expanded ← runCustomMacroImpl m [arg1Exp, arg2Exp]
                    .ok (expanded, after2)
                  | none =>
                    .error (.err ("Unmatched curly brackets for command " ++ m.name))
            | none => .error (.err ("Unmatched curly brackets for command " ++ m.name))
      | .OptionalUnary =>
        match rest with
        | [] => .error (.panic "index out of bounds")
        | u :: rest2 =>
          if u.value = "[" then
            match splitAtFirstValue rest2 "]" with
            | some (optToks, after) => do
              let optExp ← expandMacros f reg optToks
              let expanded ← runCustomMacroImpl m [optExp]
              .ok (expanded, after)
            | none =>
              .error (.err ("Unmatched right square brackets for command " ++ m.name))
          else do
            let expanded ← runCustomMacroImpl m []
            .ok (expanded, rest)
      | .OptionalBinary =>
        match rest with
        | [] => .error (.panic "index out of bounds")
        | u :: rest2 =>
          if u.value = "[" then
            match splitAtFirstValue rest2 "]" with
            | some (optToks, after) => do
              let optExp ← expandMacros f reg optToks
              match after with
              | [] => .error (.panic "index out of bounds")
              | v :: rest3 =>
                if v.value ≠ lbraceStr then
                  .error (.err
                    ("Expecting the mandatory argument after the optional argument for command "
                      ++ m.name))
                else
                  match findMatchingRightCurlyToken rest3 with
                  | some (mandToks, after2) => do
                    let mandExp ← expandMacros f reg mandToks
                    let expanded ← runCustomMacroImpl m [optExp, mandExp]
                    .ok (expanded, after2)
                  | none =>
                    .error (.err ("Unmatched curly brackets for command " ++ m.name))
            | none => .error (.err ("Unmatched square brackets for command " ++ m.name))
          else if u.value = lbraceStr then
            match findMatchingRightCurlyToken rest2 with
            | some (mandToks, after) => do
              let mandExp ← expandMacros f reg mandToks
              let expanded ← runCustomMacroImpl m [mandExp]
              .ok (expanded, after)
            | none => .error (.err ("Unmatched curly brackets for command " ++ m.name))
          else
            .error (.err ("Expecting optional or mandatory argument for command " ++ m.name))

end

/-- The balancedness hypothesis of the safety claim, read off the claim's own
wording: curly braces and square brackets are balanced (depth scan) and the
input contains no environment commands at all (so no `\begin`/`\end` name can
mismatch). -/
def bracketBalanced (cs : List Char) (curly square : Nat) : Bool :=
  match cs with
  | [] => curly = 0 ∧ square = 0
  | c :: rest =>
    if c = lbrace then bracketBalanced rest (curly + 1) square
    else if c = rbrace then curly > 0 && bracketBalanced rest (curly - 1) square
    else if c = '[' then bracketBalanced rest curly (square + 1)
    else if c = ']' then square > 0 && bracketBalanced rest curly (square - 1)
    else bracketBalanced rest curly square

def balancedInput (s : String) : Bool :=
  bracketBalanced s.data 0 0 && !(("\\begin".data : List Char) <:+: s.data)
    && !(("\\end".data : List Char) <:+: s.data)

/-- Claim C2: of the three input/output equalities the spec states, the first
two hold, but `\sqrt[3]{x}` renders as `sqrt(x)`: the parser stores the
optional index in the `Sqrt` data of a `UnaryFunc` node, and the converter's
`UnaryFunc` arm never reads that data (only the never-produced
`OptionBinaryFunc` arm would emit `root`), contradicting the repository's own
tests (`simple_test`, `test_sqrt` expect `root(3, x)`). -/
theorem claim_C2_sqrt_pipeline :
    tex2typst "\\frac\x7b1\x7d\x7b2\x7d" = .ok "1/2"
    ∧ tex2typst "\\sqrt\x7b2\x7d" = .ok "sqrt(2)"
    ∧ tex2typst "\\sqrt[3]\x7bx\x7d" = .ok "sqrt(x)"
    ∧ tex2typst "\\sqrt[3]\x7bx\x7d" ≠ .ok "root(3, x)" := by
  refine ⟨rfl, rfl, rfl, ?_⟩
  intro h
  have h2 : ("sqrt(x)" : String) = "root(3, x)" :=
    Except.ok.inj ((rfl : tex2typst "\\sqrt[3]\x7bx\x7d" = .ok "sqrt(x)").symm.trans h)
  exact absurd h2 (by decide)

/-- Claim C4, counterexample: a second explicit superscript after a completed
one is accepted, not rejected — `a^b^c` parses to an `Ordgroup` of two
`SupSub` nodes (the second with an `Empty` base) instead of producing the
"Double superscript" error the claim requires for every such sequence. -/
theorem claim_C4_counterexample :
    TexParser.parseTex "a^b^c" [] =
      .ok (.ordgroup
        [.supsub (.element "a") none (some (.element "b")),
         .supsub .empty none (some (.element "c"))]) := rfl

/-- Claim C4, amended: the "Double superscript" abort fires exactly on prime
marks that follow an already-consumed superscript — for any element tokens
`a`, `b`, parsing `a ^ b '` aborts with "Double superscript" (and, per the
counterexample, a second explicit `^`/`_` instead starts a new expression
with an `Empty` base). -/
theorem claim_C4_amended (f : Nat) (p : TexParser.LatexParser) (a b : String) :
    TexParser.parseNextExpr (f + 2) p
      [⟨.Element, a⟩, ⟨.Control, "^"⟩, ⟨.Element, b⟩, ⟨.Element, primeStr⟩] =
      .error (.panic "Double superscript") := rfl

/-! Helper lemmas. -/

theorem isAlpha_isDigit_false {c : Char} (h : c.isAlpha = true) : c.isDigit = false := by
  simp [Char.isAlpha, Char.isUpper, Char.isLower, Char.isDigit, Char.le_def,
    UInt32.le_def, BitVec.le_def] at *
  omega

theorem ne_of_isAlpha {c : Char} (h : c.isAlpha = true) (d : Char)
    (hd : d.isAlpha = false) : c ≠ d := fun e => by
  rw [e] at h
  rw [h] at hd
  exact absurd hd (by decide)

theorem ne_of_isDigit {c : Char} (h : c.isDigit = true) (d : Char)
    (hd : d.isDigit = false) : c ≠ d := fun e => by
  rw [e] at h
  rw [h] at hd
  exact absurd hd (by decide)

theorem scanToken_alpha {c : Char} (h : c.isAlpha = true) (rest : List Char) :
    TexTokenizer.scanToken (c :: rest) = .ok (⟨.Element, String.mk [c]⟩, rest) := by
  have h1 := ne_of_isAlpha h '%' (by decide)
  have h2 := ne_of_isAlpha h lbrace (by decide)
  have h3 := ne_of_isAlpha h rbrace (by decide)
  have h4 := ne_of_isAlpha h '_' (by decide)
  have h5 := ne_of_isAlpha h '^' (by decide)
  have h6 := ne_of_isAlpha h '&' (by decide)
  have h7 := ne_of_isAlpha h '\n' (by decide)
  have h8 := ne_of_isAlpha h '\r' (by decide)
  have h9 := ne_of_isAlpha h ' ' (by decide)
  have h10 := ne_of_isAlpha h '\\' (by decide)
  have hd := isAlpha_isDigit_false h
  simp [TexTokenizer.scanToken, isDigitR, isAlphabeticR, h, hd, h1, h2, h3, h4, h5,
    h6, h7, h8, h9, h10]

theorem scanToken_digit {c : Char} (h : c.isDigit = true) (rest : List Char) :
    TexTokenizer.scanToken (c :: rest) =
      .ok (⟨.Element, String.mk ((c :: rest).takeWhile isDigitR)⟩,
        (c :: rest).drop ((c :: rest).takeWhile isDigitR).length) := by
  have h1 := ne_of_isDigit h '%' (by decide)
  have h2 := ne_of_isDigit h lbrace (by decide)
  have h3 := ne_of_isDigit h rbrace (by decide)
  have h4 := ne_of_isDigit h '_' (by decide)
  have h5 := ne_of_isDigit h '^' (by decide)
  have h6 := ne_of_isDigit h '&' (by decide)
  have h7 := ne_of_isDigit h '\n' (by decide)
  have h8 := ne_of_isDigit h '\r' (by decide)
  have h9 := ne_of_isDigit h ' ' (by decide)
  have h10 := ne_of_isDigit h '\\' (by decide)
  simp [TexTokenizer.scanToken, isDigitR, h, h1, h2, h3, h4, h5, h6, h7, h8, h9, h10]

theorem scanToken_space (rest : List Char) :
    TexTokenizer.scanToken (' ' :: rest) =
      .ok (⟨.Space, String.mk (' ' :: rest.takeWhile (fun d => d = ' '))⟩,
        rest.drop (rest.takeWhile (fun d => d = ' ')).length) := by
  simp [TexTokenizer.scanToken, List.takeWhile_cons, lbrace, rbrace]

theorem scanToken_newline (rest : List Char) :
    TexTokenizer.scanToken ('\n' :: rest) = .ok (⟨.Newline, "\n"⟩, rest) := by
  simp [TexTokenizer.scanToken, lbrace, rbrace]

/-- Tokens a letters/digits/spaces/newlines input can produce. -/
def plainTok (t : TexToken) : Prop :=
  (t.token_type = .Element ∧ ∀ c ∈ t.value.data, (c.isAlpha || c.isDigit) = true)
  ∨ (t.token_type = .Space ∧ ∀ c ∈ t.value.data, c = ' ')
  ∨ (t.token_type = .Newline ∧ t.value = "\n")

theorem tokenizeLoop_plain (fuel : Nat) : ∀ cs : List Char, cs.length < fuel →
    (∀ c ∈ cs, (c.isAlpha || c.isDigit || c = ' ' || c = '\n') = true) →
    ∃ toks, TexParser.tokenizeLoop fuel cs = .ok toks ∧ (∀ t ∈ toks, plainTok t)
      ∧ toks.length ≤ cs.length := by
  induction fuel with
  | zero => intro cs h _; omega
  | succ f ih =>
    intro cs hlen hcs
    match cs with
    | [] => exact ⟨[], rfl, by simp, by simp⟩
    | c :: rest =>
      have hc := hcs c (List.mem_cons_self c rest)
      have hrest : ∀ c ∈ rest, (c.isAlpha || c.isDigit || c = ' ' || c = '\n') = true :=
        fun d hd => hcs d (List.mem_cons_of_mem c hd)
      have hlen2 : rest.length < f := by
        simp [List.length_cons] at hlen; omega
      have hcases : c.isAlpha = true ∨ c.isDigit = true ∨ c = ' ' ∨ c = '\n' := by
        simpa [Bool.or_eq_true, decide_eq_true_eq, or_assoc] using hc
      rcases hcases with ha | hd | hs | hn
      · obtain ⟨toks, htoks, hplain, hlenT⟩ := ih rest hlen2 hrest
        refine ⟨⟨.Element, String.mk [c]⟩ :: toks, ?_, ?_, by simp; omega⟩
        · simp [TexParser.tokenizeLoop, scanToken_alpha ha, bind, Except.bind, htoks,
            TexTokenizer.textCommands]
        · intro t ht
          rcases List.mem_cons.mp ht with h1 | h1
          · subst h1
            exact Or.inl ⟨rfl, by simpa using Or.inl ha⟩
          · exact hplain t h1
      · set run := (c :: rest).takeWhile isDigitR with hrun
        have hrunlen : 1 ≤ run.length := by
          rw [hrun, List.takeWhile_cons, if_pos (by simpa [isDigitR] using hd)]
          simp
        have hrunle : run.length ≤ (c :: rest).length :=
          (List.takeWhile_sublist _).length_le
        have hdroplen : ((c :: rest).drop run.length).length < f := by
          rw [List.length_drop]
          simp [List.length_cons] at hlen ⊢
          omega
        have hdropmem : ∀ d ∈ (c :: rest).drop run.length,
            (d.isAlpha || d.isDigit || d = ' ' || d = '\n') = true :=
          fun d hdm => hcs d (List.drop_subset _ _ hdm)
        obtain ⟨toks, htoks, hplain, hlenT⟩ := ih _ hdroplen hdropmem
        refine ⟨⟨.Element, String.mk run⟩ :: toks, ?_, ?_, by simp at hlenT ⊢; omega⟩
        · simp [TexParser.tokenizeLoop, scanToken_digit hd, bind, Except.bind, ← hrun,
            htoks, TexTokenizer.textCommands]
        · intro t ht
          rcases List.mem_cons.mp ht with h1 | h1
          · subst h1
            refine Or.inl ⟨rfl, fun d hdm => ?_⟩
            have := List.mem_takeWhile_imp (hrun ▸ hdm)
            simp [isDigitR] at this
            simp [this]
          · exact hplain t h1
      · subst hs
        set run := rest.takeWhile (fun d => d = ' ') with hrun
        have hrunle : run.length ≤ rest.length := (List.takeWhile_sublist _).length_le
        have hdroplen : (rest.drop run.length).length < f := by
          rw [List.length_drop]; omega
        have hdropmem : ∀ d ∈ rest.drop run.length,
            (d.isAlpha || d.isDigit || d = ' ' || d = '\n') = true :=
          fun d hdm => hrest d (List.drop_subset _ _ hdm)
        obtain ⟨toks, htoks, hplain, hlenT⟩ := ih _ hdroplen hdropmem
        refine ⟨⟨.Space, String.mk (' ' :: run)⟩ :: toks, ?_, ?_, by simp at hlenT ⊢; omega⟩
        · simp [TexParser.tokenizeLoop, scanToken_space, bind, Except.bind, ← hrun,
            htoks, TexTokenizer.textCommands]
        · intro t ht
          rcases List.mem_cons.mp ht with h1 | h1
          · subst h1
            refine Or.inr (Or.inl ⟨rfl, fun d hdm => ?_⟩)
            rcases List.mem_cons.mp (by simpa using hdm) with h2 | h2
            · exact h2
            · have := List.mem_takeWhile_imp (hrun ▸ h2)
              simpa using this
          · exact hplain t h1
      · subst hn
        obtain ⟨toks, htoks, hplain, hlenT⟩ := ih rest hlen2 hrest
        refine ⟨⟨.Newline, "\n"⟩ :: toks, ?_, ?_, by simp; omega⟩
        · simp [TexParser.tokenizeLoop, scanToken_newline, bind, Except.bind, htoks,
            TexTokenizer.textCommands]
        · intro t ht
          rcases List.mem_cons.mp ht with h1 | h1
          · subst h1
            exact Or.inr (Or.inr ⟨rfl, rfl⟩)
          · exact hplain t h1

theorem plainTok_ne_prime {t : TexToken} (h : plainTok t) : t ≠ ⟨.Element, primeStr⟩ := by
  rcases h with ⟨_, hv⟩ | ⟨hty, _⟩ | ⟨hty, _⟩
  · intro e
    have := hv primeChar (by rw [e]; simp [primeStr])
    rw [show primeChar = Char.ofNat 39 from rfl] at this
    exact absurd this (by decide)
  · intro e
    rw [e] at hty
    exact absurd hty (by decide)
  · intro e
    rw [e] at hty
    exact absurd hty (by decide)

theorem plainTok_not_control {t : TexToken} (h : plainTok t) :
    t.token_type ≠ .Control := by
  rcases h with ⟨hty, _⟩ | ⟨hty, _⟩ | ⟨hty, _⟩ <;> rw [hty] <;> decide

theorem plainTok_ne_sub {t : TexToken} (h : plainTok t) : t ≠ SUB_SYMBOL := by
  intro e
  exact plainTok_not_control h (by rw [e]; rfl)

theorem plainTok_ne_sup {t : TexToken} (h : plainTok t) : t ≠ SUP_SYMBOL := by
  intro e
  exact plainTok_not_control h (by rw [e]; rfl)

theorem countPrimes_plain {toks : List TexToken} (h : ∀ t ∈ toks, plainTok t) :
    countPrimes toks = 0 := by
  cases toks with
  | nil => rfl
  | cons t rest =>
    have := plainTok_ne_prime (h t (List.mem_cons_self t rest))
    simp [countPrimes, List.takeWhile_cons, this]

/-- The Space/Newline dropping in `parse` fires on every plain whitespace
token value. -/
theorem rustReplaceGo_spaces {cs : List Char} :
    ∀ fuel, cs.length < fuel → (∀ c ∈ cs, c = ' ') →
    rustReplaceGo fuel cs [' '] [] = [] := by
  induction cs with
  | nil =>
    intro fuel hf _
    cases fuel with
    | zero => omega
    | succ f => rfl
  | cons c rest ih =>
    intro fuel hf hall
    cases fuel with
    | zero => omega
    | succ f =>
      have hc : c = ' ' := hall c (List.mem_cons_self c rest)
      subst hc
      rw [rustReplaceGo]
      rw [if_pos (by simp [List.isPrefixOf])]
      simpa using ih f (by simpa using hf) fun d hd => hall d (List.mem_cons_of_mem _ hd)

theorem rustReplace_spaces {s : String} (h : ∀ c ∈ s.data, c = ' ') :
    rustReplace s " " "" = "" := by
  have : rustReplaceGo (s.data.length + 1) s.data [' '] [] = [] :=
    rustReplaceGo_spaces (s.data.length + 1) (by omega) h
  show String.mk (rustReplaceGo (s.data.length + 1) s.data [' '] []) = ""
  rw [this]

theorem isScriptMark_false_of_not_control {t : TexToken}
    (h : t.token_type ≠ .Control) : TexParser.isScriptMark t = false := by
  rcases ht : t with ⟨ty, v⟩
  rw [ht] at h
  simp only [TexToken.token_type] at h
  simp [TexParser.isScriptMark, SUB_SYMBOL, SUP_SYMBOL]
  constructor <;> intro h1 <;> exact absurd h1 (by simpa using h)

theorem passIgnoreWs_go_id (toks : List TexToken)
    (h : ∀ t ∈ toks, t.token_type ≠ .Control) :
    ∀ prev, (∀ pv, prev = some pv → pv.token_type ≠ .Control) →
    TexParser.passIgnoreWsGo prev toks = toks := by
  induction toks with
  | nil => intro prev _; rfl
  | cons t rest ih =>
    intro prev hprev
    have hnext : TexParser.isScriptMarkOpt rest.head? = false := by
      cases rest with
      | nil => rfl
      | cons a b =>
        simp only [List.head?, TexParser.isScriptMarkOpt]
        exact isScriptMark_false_of_not_control
          (h a (List.mem_cons_of_mem _ (List.mem_cons_self a b)))
    have hprevF : TexParser.isScriptMarkOpt prev = false := by
      cases prev with
      | none => rfl
      | some pv =>
        simp only [TexParser.isScriptMarkOpt]
        exact isScriptMark_false_of_not_control (hprev pv rfl)
    rw [TexParser.passIgnoreWsGo]
    rw [hnext, hprevF]
    simp only [Bool.or_false]
    rw [if_neg (by rintro ⟨-, h2⟩; exact absurd h2 (by decide))]
    rw [ih (fun u hu => h u (List.mem_cons_of_mem _ hu)) (some t)
      (fun pv hpv => by rw [← Option.some.inj hpv]; exact h t (List.mem_cons_self t rest))]

theorem passExpand_nil : ∀ toks, TexParser.passExpandCustomTexMacros toks [] = toks := by
  intro toks
  induction toks with
  | nil => rfl
  | cons t rest ih =>
    rw [TexParser.passExpandCustomTexMacros]
    split
    · simpa [List.find?] using ih
    · simp [ih]

/-- The node an Element token contributes to a plain parse (whitespace tokens
contribute nothing). -/
def elemOfTok (t : TexToken) : Option TexNode :=
  if t.token_type = .Element then some (.element t.value) else none

theorem parseNextExpr_plain (g : Nat) (p : TexParser.LatexParser) (t : TexToken)
    (rest : List TexToken) (ht : plainTok t) (hrest : ∀ u ∈ rest, plainTok u) :
    TexParser.parseNextExpr (g + 2) p (t :: rest) =
      .ok ((if t.token_type = .Element then TexNode.element t.value
        else .whitespace t.value), rest) := by
  have hsub : rest.head? ≠ some SUB_SYMBOL := by
    cases rest with
    | nil => simp
    | cons a b =>
      simp only [List.head?, ne_eq, Option.some.injEq]
      exact plainTok_ne_sub (hrest a (List.mem_cons_self a b))
  have hsup : rest.head? ≠ some SUP_SYMBOL := by
    cases rest with
    | nil => simp
    | cons a b =>
      simp only [List.head?, ne_eq, Option.some.injEq]
      exact plainTok_ne_sup (hrest a (List.mem_cons_self a b))
  have hcp := countPrimes_plain hrest
  rcases t with ⟨ty, v⟩
  have h0 : TexParser.parseNextExprWithoutSupsub (g + 1) p (⟨ty, v⟩ :: rest) =
      .ok ((if ty = .Element then TexNode.element v else .whitespace v), rest) := by
    rcases ht with ⟨hty, -⟩ | ⟨hty, -⟩ | ⟨hty, -⟩ <;>
      simp only [TexToken.token_type] at hty <;> subst hty <;> rfl
  rw [TexParser.parseNextExpr]
  rw [h0]
  simp only [bind, Except.bind, hcp, List.drop_zero]
  rw [if_neg hsub, if_neg hsup, if_neg (by omega)]

theorem parseLoop_plain (toks : List TexToken) :
    ∀ fuel, 2 * toks.length + 2 ≤ fuel → (∀ t ∈ toks, plainTok t) →
    TexParser.parseLoop fuel ⟨false, false⟩ toks = .ok (toks.filterMap elemOfTok) := by
  induction toks with
  | nil =>
    intro fuel hf _
    simp only [List.length_nil] at hf
    obtain ⟨f, rfl⟩ : ∃ f, fuel = f + 1 := ⟨fuel - 1, by omega⟩
    rfl
  | cons t rest ih =>
    intro fuel hf h
    simp only [List.length_cons] at hf
    obtain ⟨f, rfl⟩ : ∃ f, fuel = f + 3 := ⟨fuel - 3, by omega⟩
    have ht := h t (List.mem_cons_self t rest)
    have hrest : ∀ u ∈ rest, plainTok u := fun u hu => h u (List.mem_cons_of_mem _ hu)
    have hfr : 2 * rest.length + 2 ≤ f + 2 := by omega
    rw [show f + 3 = (f + 2) + 1 from rfl, TexParser.parseLoop]
    rw [parseNextExpr_plain f ⟨false, false⟩ t rest ht hrest]
    simp only [bind, Except.bind]
    rcases t with ⟨ty, v⟩
    rcases ht with ⟨hty, -⟩ | ⟨hty, hv⟩ | ⟨hty, hv⟩
    · simp only [TexToken.token_type] at hty
      subst hty
      simp only [if_pos rfl]
      rw [ih _ hfr hrest]
      simp [Except.map, List.filterMap_cons, elemOfTok]
    · simp only [TexToken.token_type, TexToken.value] at hty hv
      subst hty
      simp only [if_neg (show ¬ (TexTokenType.Space = TexTokenType.Element) by decide)]
      rw [if_pos (Or.inl ⟨by decide, rustReplace_spaces hv⟩)]
      rw [ih _ hfr hrest]
      simp [List.filterMap_cons, elemOfTok]
    · simp only [TexToken.token_type, TexToken.value] at hty hv
      subst hty
      subst hv
      simp only [if_neg (show ¬ (TexTokenType.Newline = TexTokenType.Element) by decide)]
      rw [if_pos (by decide)]
      rw [ih _ hfr hrest]
      simp [List.filterMap_cons, elemOfTok]

/-- The wrapping applied by `parse` to the collected expressions. -/
def wrapNodes (nodes : List TexNode) : TexNode :=
  match nodes with
  | [] => .empty
  | [r] => r
  | rs => .ordgroup rs

theorem parse_plain (toks : List TexToken) (fuel : Nat)
    (hf : 2 * toks.length + 3 ≤ fuel) (h : ∀ t ∈ toks, plainTok t) :
    TexParser.parse fuel ⟨false, false⟩ toks =
      .ok (wrapNodes (toks.filterMap elemOfTok)) := by
  obtain ⟨f, rfl⟩ : ∃ f, fuel = f + 1 := ⟨fuel - 1, by omega⟩
  rw [TexParser.parse]
  rw [parseLoop_plain toks f (by omega) h]
  rfl

theorem parseTex_plain (s : String)
    (hs : ∀ c ∈ s.data, (c.isAlpha || c.isDigit || c = ' ' || c = '\n') = true) :
    ∃ toks : List TexToken, TexParser.parseTex s [] = .ok (wrapNodes (toks.filterMap elemOfTok))
      ∧ (∀ t ∈ toks, plainTok t) ∧ toks.length ≤ s.data.length := by
  obtain ⟨toks, htok, hplain, hlenT⟩ :=
    tokenizeLoop_plain (s.data.length + 1) s.data (by omega) hs
  refine ⟨toks, ?_, hplain, hlenT⟩
  rw [TexParser.parseTex, TexParser.tokenize, htok]
  simp only [bind, Except.bind]
  rw [TexParser.passIgnoreWhitespaceBeforeScriptMark,
    passIgnoreWs_go_id toks (fun t ht => plainTok_not_control (hplain t ht)) none
      (by simp)]
  rw [passExpand_nil]
  exact parse_plain toks (TexParser.parserFuel toks) (by simp [TexParser.parserFuel]; omega) hplain

theorem convert_token_alnum (v : String)
    (hv : ∀ c ∈ v.data, (c.isAlpha || c.isDigit) = true) : convert_token v = v := by
  rw [convert_token, if_pos]
  simpa [List.all_eq_true, Char.isAlphanum] using hv

theorem convertList_atoms (nodes : List TexNode) :
    ∀ fuel, nodes.length + 2 ≤ fuel →
    (∀ nd ∈ nodes, ∃ v, nd = TexNode.element v ∧ ∀ c ∈ v.data, (c.isAlpha || c.isDigit) = true) →
    ∃ ts, convertList fuel nodes = .ok ts
      ∧ (∀ m ∈ ts, ∃ v, m = TypstNode.atom v ∧ ∀ c ∈ v.data, (c.isAlpha || c.isDigit) = true)
      ∧ ts.length = nodes.length := by
  induction nodes with
  | nil =>
    intro fuel hf _
    obtain ⟨f, rfl⟩ : ∃ f, fuel = f + 1 := ⟨fuel - 1, by omega⟩
    exact ⟨[], rfl, by simp, rfl⟩
  | cons nd rest ih =>
    intro fuel hf h
    simp only [List.length_cons] at hf
    obtain ⟨f, rfl⟩ : ∃ f, fuel = f + 2 := ⟨fuel - 2, by omega⟩
    obtain ⟨v, rfl, hv⟩ := h nd (List.mem_cons_self nd rest)
    obtain ⟨ts, hts, hats, hlen⟩ := ih (f + 1) (by omega)
      (fun u hu => h u (List.mem_cons_of_mem _ hu))
    refine ⟨.atom v :: ts, ?_, ?_, by simp [hlen]⟩
    · rw [show f + 2 = (f + 1) + 1 from rfl, convertList]
      rw [show convertTree (f + 1) (.element v) = .ok (.atom (convert_token v)) from rfl]
      rw [convert_token_alnum v hv]
      rw [hts]
      rfl
    · intro m hm
      rcases List.mem_cons.mp hm with h1 | h1
      · exact ⟨v, h1, hv⟩
      · exact hats m h1

theorem convertTree_plainWrap (nodes : List TexNode) (fuel : Nat)
    (hf : nodes.length + 3 ≤ fuel)
    (h : ∀ nd ∈ nodes, ∃ v, nd = TexNode.element v ∧ ∀ c ∈ v.data, (c.isAlpha || c.isDigit) = true) :
    ∃ tn, convertTree fuel (wrapNodes nodes) = .ok tn
      ∧ (tn = .empty
        ∨ (∃ v, tn = TypstNode.atom v ∧ ∀ c ∈ v.data, (c.isAlpha || c.isDigit) = true)
        ∨ (∃ ts, tn = TypstNode.group ts ∧ ts.length = nodes.length
            ∧ ∀ m ∈ ts, ∃ v, m = TypstNode.atom v ∧ ∀ c ∈ v.data, (c.isAlpha || c.isDigit) = true)) := by
  obtain ⟨f, rfl⟩ : ∃ f, fuel = f + 1 := ⟨fuel - 1, by omega⟩
  match nodes, h with
  | [], _ => exact ⟨.empty, rfl, Or.inl rfl⟩
  | [nd], h =>
    obtain ⟨v, rfl, hv⟩ := h nd (List.mem_cons_self nd [])
    refine ⟨.atom v, ?_, Or.inr (Or.inl ⟨v, rfl, hv⟩)⟩
    show Except.ok (TypstNode.atom (convert_token v)) = _
    rw [convert_token_alnum v hv]
  | nd1 :: nd2 :: rest, h =>
    obtain ⟨ts, hts, hats, hlen⟩ := convertList_atoms (nd1 :: nd2 :: rest) f
      (by simp at hf ⊢; omega) h
    refine ⟨.group ts, ?_, Or.inr (Or.inr ⟨ts, rfl, hlen, hats⟩)⟩
    show (convertList f (nd1 :: nd2 :: rest)).map TypstNode.group = _
    rw [hts]
    rfl

theorem alnum_ne_comma {v : String}
    (hv : ∀ c ∈ v.data, (c.isAlpha || c.isDigit) = true) : v ≠ "," := by
  intro e
  have := hv ',' (by rw [e]; simp)
  exact absurd this (by decide)

theorem serialize_atom_alnum (f : Nat) (v : String) (w : TypstWriterState)
    (hv : ∀ c ∈ v.data, (c.isAlpha || c.isDigit) = true) :
    serialize (f + 1) (.atom v) w = .ok (pushQ w ⟨.Element, v⟩) := by
  rw [serialize]
  rw [if_neg]
  rintro ⟨h1, -⟩
  exact absurd h1 (alnum_ne_comma hv)

theorem serializeSeq_atoms (ts : List TypstNode) :
    ∀ fuel w, ts.length + 2 ≤ fuel →
    (∀ m ∈ ts, ∃ v, m = TypstNode.atom v ∧ ∀ c ∈ v.data, (c.isAlpha || c.isDigit) = true) →
    ∃ w', serializeSeq fuel ts w = .ok w' := by
  induction ts with
  | nil =>
    intro fuel w hf _
    obtain ⟨f, rfl⟩ : ∃ f, fuel = f + 1 := ⟨fuel - 1, by omega⟩
    exact ⟨w, rfl⟩
  | cons m rest ih =>
    intro fuel w hf h
    simp only [List.length_cons] at hf
    obtain ⟨f, rfl⟩ : ∃ f, fuel = f + 2 := ⟨fuel - 2, by omega⟩
    obtain ⟨v, rfl, hv⟩ := h m (List.mem_cons_self m rest)
    obtain ⟨w', hw'⟩ := ih (f + 1) (pushQ w ⟨.Element, v⟩) (by omega)
      (fun u hu => h u (List.mem_cons_of_mem _ hu))
    refine ⟨w', ?_⟩
    rw [show f + 2 = (f + 1) + 1 from rfl, serializeSeq]
    rw [serialize_atom_alnum f v w hv]
    simpa [bind, Except.bind] using hw'

/-- Claim C1, counterexample: the bare alignment mark `&` is a balanced input
(no brackets, no environments) on which `tex2typst` aborts with a panic
instead of returning a result. -/
theorem claim_C1_counterexample :
    balancedInput "&" = true
    ∧ tex2typst "&" = .error (.panic "Unexpected & outside of an alignment") :=
  ⟨rfl, rfl⟩

/-- Claim C1, amended: bracket balance does not guarantee success — a
top-level `&` aborts — but on the command-free fragment (letters, digits,
spaces and newlines) `tex2typst` always returns `Ok`. -/
theorem claim_C1_amended (s : String)
    (hs : ∀ c ∈ s.data, (c.isAlpha || c.isDigit || c = ' ' || c = '\n') = true) :
    ∃ out, tex2typst s = .ok out := by
  obtain ⟨toks, hparse, hplain, hlenT⟩ := parseTex_plain s hs
  have hshape : ∀ nd ∈ toks.filterMap elemOfTok,
      ∃ v, nd = TexNode.element v ∧ ∀ c ∈ v.data, (c.isAlpha || c.isDigit) = true := by
    intro nd hnd
    obtain ⟨t, ht, hmap⟩ := List.mem_filterMap.mp hnd
    rcases hplain t ht with ⟨hty, hv⟩ | ⟨hty, -⟩ | ⟨hty, -⟩
    · rw [elemOfTok, if_pos hty] at hmap
      exact ⟨t.value, (Option.some.inj hmap).symm, hv⟩
    · rw [elemOfTok, if_neg (by rw [hty]; decide)] at hmap
      cases hmap
    · rw [elemOfTok, if_neg (by rw [hty]; decide)] at hmap
      cases hmap
  have hlenle : (toks.filterMap elemOfTok).length ≤ toks.length :=
    List.length_filterMap_le _ _
  have hlen2 : (toks.filterMap elemOfTok).length ≤ s.data.length := le_trans hlenle hlenT
  obtain ⟨tn, hconv, hshapeT⟩ := convertTree_plainWrap (toks.filterMap elemOfTok)
    (4 * s.data.length + 64) (by omega) hshape
  have hser : ∃ w', serialize (4 * s.data.length + 64) tn newTypstWriter = .ok w' := by
    obtain ⟨f, hfeq⟩ : ∃ f, 4 * s.data.length + 64 = f + 1 := ⟨4 * s.data.length + 63, by omega⟩
    rcases hshapeT with rfl | ⟨v, rfl, hv⟩ | ⟨ts, rfl, hlents, hts⟩
    · rw [hfeq]
      exact ⟨newTypstWriter, rfl⟩
    · rw [hfeq]
      exact ⟨_, serialize_atom_alnum f v _ hv⟩
    · rw [hfeq, serialize]
      exact serializeSeq_atoms ts f newTypstWriter (by omega) hts
  obtain ⟨w', hw'⟩ := hser
  rw [tex2typst, hparse]
  simp only [bind, Except.bind]
  rw [hconv]
  simp only [bind, Except.bind]
  rw [hw']
  exact ⟨_, rfl⟩

/-- Claim C1, witness. -/
theorem claim_C1_amended_witness : ∃ out, tex2typst "ab 12" = .ok out :=
  claim_C1_amended "ab 12" (by decide)

theorem tokenizeLoop_ws (fuel : Nat) : ∀ cs : List Char, cs.length < fuel →
    (∀ c ∈ cs, c = ' ' ∨ c = '\n') →
    ∃ toks, TexParser.tokenizeLoop fuel cs = .ok toks
      ∧ ∀ t ∈ toks, plainTok t ∧ t.token_type ≠ .Element := by
  induction fuel with
  | zero => intro cs h _; omega
  | succ f ih =>
    intro cs hlen hcs
    match cs with
    | [] => exact ⟨[], rfl, by simp⟩
    | c :: rest =>
      have hrest : ∀ c ∈ rest, c = ' ' ∨ c = '\n' :=
        fun d hd => hcs d (List.mem_cons_of_mem c hd)
      have hlen2 : rest.length < f := by
        simp [List.length_cons] at hlen; omega
      rcases hcs c (List.mem_cons_self c rest) with hs | hn
      · subst hs
        set run := rest.takeWhile (fun d => d = ' ') with hrun
        have hrunle : run.length ≤ rest.length := (List.takeWhile_sublist _).length_le
        have hdroplen : (rest.drop run.length).length < f := by
          rw [List.length_drop]; omega
        have hdropmem : ∀ d ∈ rest.drop run.length, d = ' ' ∨ d = '\n' :=
          fun d hdm => hrest d (List.drop_subset _ _ hdm)
        obtain ⟨toks, htoks, hplain⟩ := ih _ hdroplen hdropmem
        refine ⟨⟨.Space, String.mk (' ' :: run)⟩ :: toks, ?_, ?_⟩
        · simp [TexParser.tokenizeLoop, scanToken_space, bind, Except.bind, ← hrun,
            htoks, TexTokenizer.textCommands]
        · intro t ht
          rcases List.mem_cons.mp ht with h1 | h1
          · subst h1
            refine ⟨Or.inr (Or.inl ⟨rfl, fun d hdm => ?_⟩),
              by simp [TexToken.token_type]⟩
            rcases List.mem_cons.mp (by simpa using hdm) with h2 | h2
            · exact h2
            · have := List.mem_takeWhile_imp (hrun ▸ h2)
              simpa using this
          · exact hplain t h1
      · subst hn
        obtain ⟨toks, htoks, hplain⟩ := ih rest hlen2 hrest
        refine ⟨⟨.Newline, "\n"⟩ :: toks, ?_, ?_⟩
        · simp [TexParser.tokenizeLoop, scanToken_newline, bind, Except.bind, htoks,
            TexTokenizer.textCommands]
        · intro t ht
          rcases List.mem_cons.mp ht with h1 | h1
          · subst h1
            exact ⟨Or.inr (Or.inr ⟨rfl, rfl⟩), by decide⟩
          · exact hplain t h1

/-- Claim C9: the empty input and any input of spaces and newlines only
convert to the empty string: the parser yields the `Empty` sentinel,
serializing it emits nothing, and `finalize` renders `""`. -/
theorem claim_C9_empty_input (s : String)
    (hs : ∀ c ∈ s.data, c = ' ' ∨ c = '\n') : tex2typst s = .ok "" := by
  obtain ⟨toks, htok, hplain⟩ :=
    tokenizeLoop_ws (s.data.length + 1) s.data (by omega) hs
  have hparse : TexParser.parseTex s [] = .ok .empty := by
    rw [TexParser.parseTex, TexParser.tokenize, htok]
    simp only [bind, Except.bind]
    rw [TexParser.passIgnoreWhitespaceBeforeScriptMark,
      passIgnoreWs_go_id toks (fun t ht => plainTok_not_control (hplain t ht).1) none
        (by simp)]
    rw [passExpand_nil]
    have hfm : toks.filterMap elemOfTok = [] := by
      rw [List.filterMap_eq_nil_iff]
      intro t ht
      rw [elemOfTok, if_neg (hplain t ht).2]
    have := parse_plain toks (TexParser.parserFuel toks)
      (by simp [TexParser.parserFuel]; omega) (fun t ht => (hplain t ht).1)
    rw [hfm] at this
    exact this
  rw [tex2typst, hparse]
  simp only [bind, Except.bind]
  obtain ⟨f, hfeq⟩ : ∃ f, 4 * s.data.length + 64 = f + 1 :=
    ⟨4 * s.data.length + 63, by omega⟩
  rw [hfeq]
  rw [show convertTree (f + 1) TexNode.empty = .ok .empty from rfl]
  rfl

/-- Claim C9, witness. -/
theorem claim_C9_witness :
    tex2typst "" = .ok "" ∧ tex2typst "  \n " = .ok "" :=
  ⟨claim_C9_empty_input "" (by decide), claim_C9_empty_input "  \n " (by decide)⟩

theorem dot_right_not_invisible (lc : String) : (lc, ".") ∉ invisiblePairs := by
  intro hmem
  simp only [invisiblePairs, List.mem_cons, List.not_mem_nil, or_false,
    Prod.mk.injEq] at hmem
  rcases hmem with ⟨-, h⟩ | ⟨-, h⟩ | ⟨-, h⟩ | ⟨-, h⟩ | ⟨-, h⟩ | ⟨-, h⟩ <;>
    exact absurd h (by decide)

theorem dot_left_not_invisible (rc : String) : (".", rc) ∉ invisiblePairs := by
  intro hmem
  simp only [invisiblePairs, List.mem_cons, List.not_mem_nil, or_false,
    Prod.mk.injEq] at hmem
  rcases hmem with ⟨h, -⟩ | ⟨h, -⟩ | ⟨h, -⟩ | ⟨h, -⟩ | ⟨h, -⟩ | ⟨h, -⟩ <;>
    exact absurd h (by decide)

/-- Claim C6: the four `Leftright` rewrites of `convert_tree` — a plain group
for a canonical invisible pair, the trailing delimiter dropped for a right
`.`, a one-argument `lr` call with the leading delimiter dropped for a left
`.`, and the `lr` call keeping both delimiters otherwise. -/
theorem claim_C6_leftright (fuel : Nat) (lc rc : String) (body : TexNode)
    (b' : TypstNode) (hb : convertTree fuel body = .ok b') :
    ((lc, rc) ∈ invisiblePairs →
      convertTree (fuel + 1) (.leftright (.element lc) body (.element rc)) =
        .ok (.group [.atom (convert_token lc), b', .atom (convert_token rc)]))
    ∧ (rc = "." →
      convertTree (fuel + 1) (.leftright (.element lc) body (.element rc)) =
        .ok (.group [.atom (convert_token lc), b']))
    ∧ (lc = "." → rc ≠ "." →
      convertTree (fuel + 1) (.leftright (.element lc) body (.element rc)) =
        .ok (.funcCall "lr" [.group [b', .atom (convert_token rc)]] []))
    ∧ ((lc, rc) ∉ invisiblePairs → lc ≠ "." → rc ≠ "." →
      convertTree (fuel + 1) (.leftright (.element lc) body (.element rc)) =
        .ok (.funcCall "lr"
          [.group [.atom (convert_token lc), b', .atom (convert_token rc)]] [])) := by
  obtain ⟨f, rfl⟩ : ∃ f, fuel = f + 1 := by
    cases fuel with
    | zero => exact absurd hb (by simp [convertTree])
    | succ f => exact ⟨f, rfl⟩
  have hstep : convertTree ((f + 1) + 1) (.leftright (.element lc) body (.element rc)) =
      (do
        let lT ← convertTree (f + 1) (TexNode.element lc)
        let bT ← convertTree (f + 1) body
        let rT ← convertTree (f + 1) (TexNode.element rc)
        if (lc, rc) ∈ invisiblePairs then
          pure (TypstNode.group [lT, bT, rT])
        else if rc = "." then
          pure (TypstNode.group [lT, bT])
        else if lc = "." then
          pure (TypstNode.funcCall "lr" [.group [bT, rT]] [])
        else
          pure (TypstNode.funcCall "lr" [.group [lT, bT, rT]] [])) := rfl
  rw [hstep]
  rw [show convertTree (f + 1) (TexNode.element lc) = .ok (.atom (convert_token lc)) from rfl]
  rw [show convertTree (f + 1) (TexNode.element rc) = .ok (.atom (convert_token rc)) from rfl]
  rw [hb]
  simp only [bind, Except.bind, pure, Except.pure]
  refine ⟨fun hmem => ?_, fun hdot => ?_, fun hldot hrne => ?_, fun hnm hl hr => ?_⟩
  · rw [if_pos hmem]
  · subst hdot
    rw [if_neg (dot_right_not_invisible lc), if_pos rfl]
  · subst hldot
    rw [if_neg (dot_left_not_invisible rc), if_neg hrne, if_pos rfl]
  · rw [if_neg hnm, if_neg hr, if_neg hl]

/-- Claim C6, witness: a concrete instance of each of the four rewrites. -/
theorem claim_C6_witness :
    (convertTree 2 (.leftright (.element "(") (.element "x") (.element ")")) =
      .ok (.group [.atom "(", .atom "x", .atom ")"]))
    ∧ (convertTree 2 (.leftright (.element "(") (.element "x") (.element ".")) =
      .ok (.group [.atom "(", .atom "x"]))
    ∧ (convertTree 2 (.leftright (.element ".") (.element "x") (.element ")")) =
      .ok (.funcCall "lr" [.group [.atom "x", .atom ")"]] []))
    ∧ (convertTree 2 (.leftright (.element "(") (.element "x") (.element "]")) =
      .ok (.funcCall "lr" [.group [.atom "(", .atom "x", .atom "]"]] [])) := by
  have h := fun lc rc =>
    claim_C6_leftright 1 lc rc (.element "x") (.atom "x") rfl
  refine ⟨(h "(" ")").1 (by decide), (h "(" ".").2.1 rfl,
    (h "." ")").2.2.1 rfl (by decide), (h "(" "]").2.2.2 (by decide) (by decide) (by decide)⟩

theorem countPrimes_cons_ne {t : TexToken} (r : List TexToken)
    (h : t ≠ ⟨.Element, primeStr⟩) : countPrimes (t :: r) = 0 := by
  simp [countPrimes, List.takeWhile_cons, h]

/-- Claim C8: when the two scripts carry no prime marks, `B _ S ^ P` and
`B ^ P _ S` parse to the identical `SupSub` node (same base, sub and sup).
The hypotheses state that the base/sub/sup sub-parses succeed and are
followed by the corresponding script markers, and that no primes trail
either form. -/
theorem claim_C8_supsub_order (f : Nat) (p : TexParser.LatexParser)
    (toks1 toks2 r1 r2 q1 q2 rest1 rest2 : List TexToken) (B S P : TexNode)
    (h1a : TexParser.parseNextExprWithoutSupsub f p toks1 = .ok (B, SUB_SYMBOL :: r1))
    (h1b : TexParser.parseNextExprWithoutSupsub f p r1 = .ok (S, SUP_SYMBOL :: r2))
    (h1c : TexParser.parseNextExprWithoutSupsub f p r2 = .ok (P, rest1))
    (h1d : countPrimes rest1 = 0)
    (h2a : TexParser.parseNextExprWithoutSupsub f p toks2 = .ok (B, SUP_SYMBOL :: q1))
    (h2b : TexParser.parseNextExprWithoutSupsub f p q1 = .ok (P, SUB_SYMBOL :: q2))
    (h2c : TexParser.parseNextExprWithoutSupsub f p q2 = .ok (S, rest2))
    (h2d : countPrimes rest2 = 0) :
    TexParser.parseNextExpr (f + 1) p toks1 =
      .ok (.supsub B (some S) (some P), rest1)
    ∧ TexParser.parseNextExpr (f + 1) p toks2 =
      .ok (.supsub B (some S) (some P), rest2) := by
  constructor
  · rw [TexParser.parseNextExpr, h1a]
    simp only [bind, Except.bind]
    rw [countPrimes_cons_ne r1 (by decide)]
    simp only [List.drop_zero, List.head?_cons, List.tail_cons, eq_self_iff_true, if_true]
    rw [h1b]
    dsimp only
    rw [countPrimes_cons_ne r2 (by decide)]
    simp only [Nat.add_zero, Nat.zero_add, List.drop_zero, List.head?_cons,
      List.tail_cons, eq_self_iff_true, if_true]
    rw [h1c]
    dsimp only
    rw [h1d]
    simp [TexParser.buildSupsub]
  · rw [TexParser.parseNextExpr, h2a]
    simp only [bind, Except.bind]
    rw [countPrimes_cons_ne q1 (by decide)]
    simp only [List.drop_zero, List.head?_cons, List.tail_cons, eq_self_iff_true, if_true]
    rw [h2b]
    dsimp only
    rw [countPrimes_cons_ne q2 (by decide)]
    simp only [Nat.add_zero, Nat.zero_add, List.drop_zero, List.head?_cons,
      List.tail_cons, eq_self_iff_true, if_true, gt_iff_lt, Nat.lt_irrefl, if_false]
    rw [h2c]
    dsimp only
    rw [h2d]
    simp [TexParser.buildSupsub]
    intro h
    exact absurd h (by decide)

/-- Claim C8, witness: `a _ b ^ c` and `a ^ c _ b` produce the same node. -/
theorem claim_C8_witness :
    TexParser.parseNextExpr 2 ⟨false, false⟩
      [⟨.Element, "a"⟩, SUB_SYMBOL, ⟨.Element, "b"⟩, SUP_SYMBOL, ⟨.Element, "c"⟩] =
      .ok (.supsub (.element "a") (some (.element "b")) (some (.element "c")), [])
    ∧ TexParser.parseNextExpr 2 ⟨false, false⟩
      [⟨.Element, "a"⟩, SUP_SYMBOL, ⟨.Element, "c"⟩, SUB_SYMBOL, ⟨.Element, "b"⟩] =
      .ok (.supsub (.element "a") (some (.element "b")) (some (.element "c")), []) :=
  claim_C8_supsub_order 1 ⟨false, false⟩ _ _ _ _ _ _ _ _
    (.element "a") (.element "b") (.element "c")
    rfl rfl rfl rfl rfl rfl rfl rfl

theorem pushQ_depth (w : TypstWriterState) (t : TypstToken) :
    (pushQ w t).insideFunctionDepth = w.insideFunctionDepth := rfl

theorem foldl_pushQ_depth {α : Type} (tk : α → TypstToken) :
    ∀ (l : List α) (w : TypstWriterState),
    (l.foldl (fun acc kv => pushQ acc (tk kv)) w).insideFunctionDepth =
      w.insideFunctionDepth := by
  intro l
  induction l with
  | nil => intro w; rfl
  | cons x rest ih => intro w; rw [List.foldl_cons]; exact ih (pushQ w (tk x))

theorem serializeWhitespaceChars_depth :
    ∀ (cs : List Char) (w w' : TypstWriterState),
    serializeWhitespaceChars cs w = .ok w' →
    w'.insideFunctionDepth = w.insideFunctionDepth := by
  intro cs
  induction cs with
  | nil =>
    intro w w' h
    rw [serializeWhitespaceChars] at h
    cases h
    rfl
  | cons c rest ih =>
    intro w w' h
    rw [serializeWhitespaceChars] at h
    split at h
    · exact ih w w' h
    · split at h
      · exact (ih _ w' h).trans (pushQ_depth w _)
      · cases h

theorem except_bind_ok {α β : Type} {x : Except Failure α} {g : α → Except Failure β}
    {b : β} (h : (x >>= g) = .ok b) : ∃ a, x = .ok a ∧ g a = .ok b := by
  cases x with
  | error e => exact absurd h (by simp [bind, Except.bind])
  | ok a =>
    refine ⟨a, rfl, ?_⟩
    simpa [bind, Except.bind] using h


theorem isPrimeAtom_none : isPrimeAtom none = false := rfl

theorem serialize_depth_pack : ∀ fuel : Nat,
    (∀ node w w', serialize fuel node w = .ok w' →
      w'.insideFunctionDepth = w.insideFunctionDepth)
    ∧ (∀ args w w', serializeSeq fuel args w = .ok w' →
      w'.insideFunctionDepth = w.insideFunctionDepth)
    ∧ (∀ args w w', serializeArgs fuel args w = .ok w' →
      w'.insideFunctionDepth = w.insideFunctionDepth)
    ∧ (∀ grid w w', serializeAlignRows fuel grid w = .ok w' →
      w'.insideFunctionDepth = w.insideFunctionDepth)
    ∧ (∀ row first w w', serializeAlignCells fuel row first w = .ok w' →
      w'.insideFunctionDepth = w.insideFunctionDepth)
    ∧ (∀ grid w w', serializeMatrixRows fuel grid w = .ok w' →
      w'.insideFunctionDepth = w.insideFunctionDepth)
    ∧ (∀ row lastRow w w', serializeMatrixCells fuel row lastRow w = .ok w' →
      w'.insideFunctionDepth = w.insideFunctionDepth)
    ∧ (∀ node w w', smartParenthesis fuel node w = .ok w' →
      w'.insideFunctionDepth = w.insideFunctionDepth)
    ∧ (∀ node w pr, appendWithBracketsIfNeeded fuel node w = .ok pr →
      pr.1.insideFunctionDepth = w.insideFunctionDepth) := by
  intro fuel
  induction fuel with
  | zero =>
    refine ⟨?_, ?_, ?_, ?_, ?_, ?_, ?_, ?_, ?_⟩ <;> intro a b c h <;>
      first
        | exact Except.noConfusion h
        | (intro h2; exact Except.noConfusion h2)
  | succ f ih =>
    obtain ⟨ihS, ihSeq, ihArgs, ihAR, ihAC, ihMR, ihMC, ihSP, ihApp⟩ := ih
    have hSer : ∀ node w w', serialize (f + 1) node w = .ok w' →
        w'.insideFunctionDepth = w.insideFunctionDepth := by
      intro node w w' h
      cases node with
      | empty => rw [serialize] at h; cases h; rfl
      | atom content =>
        rw [serialize] at h
        split at h <;> (cases h; rfl)
      | symbol content => rw [serialize] at h; cases h; rfl
      | text content => rw [serialize] at h; cases h; rfl
      | comment content => rw [serialize] at h; cases h; rfl
      | noBreakSpace content => rw [serialize] at h; cases h; rfl
      | unknown content => rw [serialize] at h; cases h; rfl
      | whitespace content =>
        rw [serialize] at h
        exact serializeWhitespaceChars_depth _ _ _ h
      | group args =>
        rw [serialize] at h
        exact ihSeq args w w' h
      | supsub base sub sup =>
        cases sub with
        | none =>
          cases sup with
          | none =>
            rw [serialize] at h
            obtain ⟨⟨w1, b1⟩, happ, h⟩ := except_bind_ok h
            have hd1 : w1.insideFunctionDepth = w.insideFunctionDepth :=
              ihApp base w (w1, b1) happ
            simp only [isPrimeAtom_none, Bool.false_eq_true, if_false, pure_bind] at h
            cases h
            exact hd1
          | some supNode =>
            rw [serialize] at h
            obtain ⟨⟨w1, b1⟩, happ, h⟩ := except_bind_ok h
            have hd1 : w1.insideFunctionDepth = w.insideFunctionDepth :=
              ihApp base w (w1, b1) happ
            cases hp : isPrimeAtom (some supNode) with
            | true =>
              simp only [hp, eq_self_iff_true, if_true, Bool.false_eq_true,
                if_false, pure_bind] at h
              cases h
              simpa [pushQ_depth] using hd1
            | false =>
              simp only [hp, Bool.false_eq_true, if_false, pure_bind] at h
              obtain ⟨⟨wa, tr⟩, hsup, h⟩ := except_bind_ok h
              have hd2 : wa.insideFunctionDepth = w1.insideFunctionDepth :=
                (ihApp supNode _ _ hsup).trans (pushQ_depth _ _)
              dsimp only at h
              split at h <;> (cases h; (try simp only [pushQ_depth]); omega)
        | some subNode =>
          cases sup with
          | none =>
            rw [serialize] at h
            obtain ⟨⟨w1, b1⟩, happ, h⟩ := except_bind_ok h
            have hd1 : w1.insideFunctionDepth = w.insideFunctionDepth :=
              ihApp base w (w1, b1) happ
            simp only [isPrimeAtom_none, Bool.false_eq_true, if_false, pure_bind] at h
            obtain ⟨⟨wa, tr1⟩, hsub, h⟩ := except_bind_ok h
            have hd2 : wa.insideFunctionDepth = w1.insideFunctionDepth :=
              (ihApp subNode _ _ hsub).trans (pushQ_depth _ _)
            dsimp only at h
            split at h <;> (cases h; (try simp only [pushQ_depth]); omega)
          | some supNode =>
            rw [serialize] at h
            obtain ⟨⟨w1, b1⟩, happ, h⟩ := except_bind_ok h
            have hd1 : w1.insideFunctionDepth = w.insideFunctionDepth :=
              ihApp base w (w1, b1) happ
            cases hp : isPrimeAtom (some supNode) with
            | true =>
              simp only [hp, eq_self_iff_true, if_true, pure_bind] at h
              obtain ⟨⟨wa, tr1⟩, hsub, h⟩ := except_bind_ok h
              have hd2 : wa.insideFunctionDepth = w1.insideFunctionDepth :=
                (ihApp subNode _ _ hsub).trans
                  ((pushQ_depth _ _).trans (pushQ_depth _ _))
              dsimp only at h
              split at h <;> (cases h; (try simp only [pushQ_depth]); omega)
            | false =>
              simp only [hp, Bool.false_eq_true, if_false, pure_bind] at h
              obtain ⟨⟨wa, tr1⟩, hsub, h⟩ := except_bind_ok h
              have hd2 : wa.insideFunctionDepth = w1.insideFunctionDepth :=
                (ihApp subNode _ _ hsub).trans (pushQ_depth _ _)
              dsimp only at h
              obtain ⟨⟨wb, tr2⟩, hsup, h⟩ := except_bind_ok h
              have hd3 : wb.insideFunctionDepth = wa.insideFunctionDepth :=
                (ihApp supNode _ _ hsup).trans (pushQ_depth _ _)
              dsimp only at h
              split at h <;> (cases h; (try simp only [pushQ_depth]); omega)
      | funcCall name args options =>
        rw [serialize] at h
        obtain ⟨w2, hargs, h⟩ := except_bind_ok h
        have hd1 : w2.insideFunctionDepth =
            (pushQ (pushQ w ⟨.Symbol, name⟩) TYPST_LEFT_PARENTHESIS).insideFunctionDepth + 1 :=
          ihArgs args _ _ hargs
        cases h
        simp only [foldl_pushQ_depth, pushQ_depth] at hd1 ⊢
        omega
      | fraction num den =>
        rw [serialize] at h
        obtain ⟨w1, hnum, h⟩ := except_bind_ok h
        have hd1 : w1.insideFunctionDepth = w.insideFunctionDepth := ihSP num _ _ hnum
        have hd2 : w'.insideFunctionDepth = (pushQ w1 ⟨.Symbol, "/"⟩).insideFunctionDepth :=
          ihSP den _ _ h
        simp only [pushQ_depth] at hd2
        omega
      | align grid =>
        rw [serialize] at h
        exact ihAR grid w w' h
      | matrix grid options =>
        rw [serialize] at h
        obtain ⟨w2, hrows, h⟩ := except_bind_ok h
        have hd1 : w2.insideFunctionDepth =
            ((pushQ (pushQ w ⟨.Symbol, "mat"⟩) TYPST_LEFT_PARENTHESIS).insideFunctionDepth + 1) :=
          (ihMR grid _ _ hrows).trans (by simp only [foldl_pushQ_depth])
        cases h
        simp only [pushQ_depth] at hd1 ⊢
        omega
    refine ⟨hSer, ?_, ?_, ?_, ?_, ?_, ?_, ?_, ?_⟩
    · intro args w w' h
      cases args with
      | nil => rw [serializeSeq] at h; cases h; rfl
      | cons a rest =>
        rw [serializeSeq] at h
        obtain ⟨w1, h1, h2⟩ := except_bind_ok h
        exact (ihSeq rest _ _ h2).trans (ihS a _ _ h1)
    · intro args w w' h
      cases args with
      | nil => rw [serializeArgs.eq_def] at h; dsimp only at h; cases h; rfl
      | cons a rest =>
        cases rest with
        | nil =>
          rw [serializeArgs.eq_def] at h
          dsimp only at h
          exact ihS a _ _ h
        | cons b rest2 =>
          rw [serializeArgs.eq_def] at h
          dsimp only at h
          obtain ⟨w1, h1, h2⟩ := except_bind_ok h
          exact ((ihArgs _ _ _ h2).trans (pushQ_depth w1 _)).trans (ihS a _ _ h1)
    · intro grid w w' h
      cases grid with
      | nil => rw [serializeAlignRows.eq_def] at h; dsimp only at h; cases h; rfl
      | cons row rest =>
        cases rest with
        | nil =>
          rw [serializeAlignRows.eq_def] at h
          dsimp only at h
          exact ihAC row true _ _ h
        | cons row2 rest2 =>
          rw [serializeAlignRows.eq_def] at h
          dsimp only at h
          obtain ⟨w1, h1, h2⟩ := except_bind_ok h
          exact ((ihAR _ _ _ h2).trans (pushQ_depth w1 _)).trans (ihAC row true _ _ h1)
    · intro row first w w' h
      cases row with
      | nil => rw [serializeAlignCells] at h; cases h; rfl
      | cons cell rest =>
        rw [serializeAlignCells] at h
        obtain ⟨w1, h1, h2⟩ := except_bind_ok h
        have h3 : w'.insideFunctionDepth = w1.insideFunctionDepth := ihAC rest false _ _ h2
        cases first with
        | true =>
          have h4 : w1.insideFunctionDepth = w.insideFunctionDepth := by
            have := ihS cell _ _ h1
            simpa using this
          omega
        | false =>
          have h4 : w1.insideFunctionDepth = w.insideFunctionDepth := by
            have := ihS cell _ _ h1
            simpa [pushQ_depth] using this
          omega
    · intro grid w w' h
      cases grid with
      | nil => rw [serializeMatrixRows.eq_def] at h; dsimp only at h; cases h; rfl
      | cons row rest =>
        cases rest with
        | nil =>
          rw [serializeMatrixRows.eq_def] at h
          dsimp only at h
          exact ihMC row true _ _ h
        | cons row2 rest2 =>
          rw [serializeMatrixRows.eq_def] at h
          dsimp only at h
          obtain ⟨w1, h1, h2⟩ := except_bind_ok h
          exact (ihMR _ _ _ h2).trans (ihMC row false _ _ h1)
    · intro row lastRow w w' h
      cases row with
      | nil => rw [serializeMatrixCells.eq_def] at h; dsimp only at h; cases h; rfl
      | cons cell rest =>
        cases rest with
        | nil =>
          rw [serializeMatrixCells.eq_def] at h
          dsimp only at h
          obtain ⟨w1, h1, h2⟩ := except_bind_ok h
          have h3 : w1.insideFunctionDepth = w.insideFunctionDepth := ihS cell _ _ h1
          cases lastRow with
          | true =>
            simp only [eq_self_iff_true, if_true] at h2
            cases h2
            omega
          | false =>
            simp only [Bool.false_eq_true, if_false] at h2
            cases h2
            simp only [pushQ_depth]
            omega
        | cons c2 rest2 =>
          rw [serializeMatrixCells.eq_def] at h
          dsimp only at h
          obtain ⟨w1, h1, h2⟩ := except_bind_ok h
          exact ((ihMC _ _ _ _ h2).trans (pushQ_depth w1 _)).trans (ihS cell _ _ h1)
    · intro node w w' h
      rw [smartParenthesis.eq_def] at h
      cases node with
      | group args =>
        dsimp only at h
        obtain ⟨w1, h1, h2⟩ := except_bind_ok h
        cases h2
        exact ((pushQ_depth w1 _).trans (ihS _ _ _ h1)).trans (pushQ_depth w _)
      | empty => dsimp only at h; exact ihS _ _ _ h
      | atom c => dsimp only at h; exact ihS _ _ _ h
      | symbol c => dsimp only at h; exact ihS _ _ _ h
      | text c => dsimp only at h; exact ihS _ _ _ h
      | comment c => dsimp only at h; exact ihS _ _ _ h
      | whitespace c => dsimp only at h; exact ihS _ _ _ h
      | noBreakSpace c => dsimp only at h; exact ihS _ _ _ h
      | supsub a b c => dsimp only at h; exact ihS _ _ _ h
      | funcCall a b c => dsimp only at h; exact ihS _ _ _ h
      | fraction a b => dsimp only at h; exact ihS _ _ _ h
      | align a => dsimp only at h; exact ihS _ _ _ h
      | matrix a b => dsimp only at h; exact ihS _ _ _ h
      | unknown a => dsimp only at h; exact ihS _ _ _ h
    · intro node w pr h
      rw [appendWithBracketsIfNeeded.eq_def] at h
      dsimp only at h
      have hWT : ∀ (b : Bool) (pr : TypstWriterState × Bool),
          ((do
            let w1 ← serialize f node (pushQ w TYPST_LEFT_PARENTHESIS)
            Except.ok (pushQ w1 TYPST_RIGHT_PARENTHESIS, b)) = Except.ok pr) →
          pr.1.insideFunctionDepth = w.insideFunctionDepth := by
        intro b pr h
        obtain ⟨w1, h1, h3⟩ := except_bind_ok h
        cases h3
        exact ((pushQ_depth w1 _).trans (ihS _ _ _ h1)).trans (pushQ_depth w _)
      have hWF : ∀ (b : Bool) (pr : TypstWriterState × Bool),
          ((do
            let w1 ← serialize f node w
            Except.ok (w1, b)) = Except.ok pr) →
          pr.1.insideFunctionDepth = w.insideFunctionDepth := by
        intro b pr h
        obtain ⟨w1, h1, h3⟩ := except_bind_ok h
        cases h3
        exact ihS _ _ _ h1
      cases node with
      | group args =>
        cases args with
        | nil => simp [bind, Except.bind] at h
        | cons a rest =>
          dsimp only at h
          split at h
          · simp only [pure_bind, eq_self_iff_true, if_true, Bool.false_eq_true,
              if_false] at h
            exact hWF _ _ h
          · simp only [pure_bind, eq_self_iff_true, if_true, Bool.false_eq_true,
              if_false] at h
            exact hWT _ _ h
      | empty =>
        simp only [pure_bind, eq_self_iff_true, if_true] at h
        exact hWT _ _ h
      | atom c =>
        simp only [pure_bind, Bool.false_eq_true, if_false] at h
        exact hWF _ _ h
      | symbol c =>
        simp only [pure_bind, Bool.false_eq_true, if_false] at h
        exact hWF _ _ h
      | text c =>
        simp only [pure_bind, Bool.false_eq_true, if_false] at h
        exact hWF _ _ h
      | comment c =>
        simp only [pure_bind, Bool.false_eq_true, if_false] at h
        exact hWF _ _ h
      | whitespace c =>
        simp only [pure_bind, Bool.false_eq_true, if_false] at h
        exact hWF _ _ h
      | noBreakSpace c =>
        simp only [pure_bind, Bool.false_eq_true, if_false] at h
        exact hWF _ _ h
      | supsub a b c =>
        simp only [pure_bind, eq_self_iff_true, if_true] at h
        exact hWT _ _ h
      | funcCall a b c =>
        simp only [pure_bind, Bool.false_eq_true, if_false] at h
        exact hWF _ _ h
      | fraction a b =>
        simp only [pure_bind, Bool.false_eq_true, if_false] at h
        exact hWF _ _ h
      | align a =>
        simp only [pure_bind, Bool.false_eq_true, if_false] at h
        exact hWF _ _ h
      | matrix a b =>
        simp only [pure_bind, Bool.false_eq_true, if_false] at h
        exact hWF _ _ h
      | unknown a =>
        simp only [pure_bind, Bool.false_eq_true, if_false] at h
        exact hWF _ _ h

/-- Claim C10: whenever `serialize` returns Ok, the writer's
`inside_function_depth` equals its value before the call (each increment at a
`FuncCall` or `Matrix` opening is matched by the decrement at its close), and a
comma Atom is emitted as the Symbol token `comma` when the current depth is
positive and as the raw Element `,` otherwise. -/
theorem claim_C10_depth_invariant (fuel : Nat) (node : TypstNode)
    (w w' : TypstWriterState) (h : serialize fuel node w = .ok w') :
    w'.insideFunctionDepth = w.insideFunctionDepth
    ∧ ∀ f0 : Nat, serialize (f0 + 1) (.atom ",") w =
        .ok (pushQ w (if 0 < w.insideFunctionDepth then
          ⟨.Symbol, "comma"⟩ else ⟨.Element, ","⟩)) := by
  refine ⟨(serialize_depth_pack fuel).1 node w w' h, ?_⟩
  intro f0
  rw [serialize]
  by_cases hd : 0 < w.insideFunctionDepth
  · rw [if_pos ⟨rfl, hd⟩, if_pos hd]
  · rw [if_neg (fun hc => hd hc.2), if_neg hd]

/-- Witness for C10: serializing `f(,)` from a fresh writer ends back at depth
0, and the comma argument inside the call is rendered as the `comma` symbol. -/
theorem claim_C10_witness :
    (⟨"", [⟨.Symbol, "f"⟩, TYPST_LEFT_PARENTHESIS, ⟨.Symbol, "comma"⟩,
        TYPST_RIGHT_PARENTHESIS], 0⟩ : TypstWriterState).insideFunctionDepth =
      newTypstWriter.insideFunctionDepth
    ∧ ∀ f0 : Nat, serialize (f0 + 1) (.atom ",") newTypstWriter =
        .ok (pushQ newTypstWriter (if 0 < newTypstWriter.insideFunctionDepth then
          ⟨.Symbol, "comma"⟩ else ⟨.Element, ","⟩)) :=
  claim_C10_depth_invariant 3 (.funcCall "f" [.atom ","] []) newTypstWriter _ rfl

/-- Claim C5, counterexample: after `\text` the tokenizer does not require the
brace at that position — on `\text a{b}` it silently skips the interleaved
` a` and scans forward to the next `\x7b`, returning Ok instead of an error. -/
theorem claim_C5_counterexample :
    TexTokenizer.tokenize "\\text a\x7bb\x7d" =
      .ok [⟨.Command, "\\text"⟩, ⟨.Control, lbraceStr⟩, ⟨.Text, "b"⟩,
        ⟨.Control, rbraceStr⟩] := by rfl

theorem rustReplaceGo_id (pat rep : List Char) (p : Char) (hp : pat.head? = some p) :
    ∀ (fuel : Nat) (cs : List Char), p ∉ cs → rustReplaceGo fuel cs pat rep = cs := by
  intro fuel
  induction fuel with
  | zero => intro cs _; rfl
  | succ f ihf =>
    intro cs hcs
    cases cs with
    | nil => rfl
    | cons c rest =>
      rw [rustReplaceGo, if_neg, ihf rest (fun m => hcs (List.mem_cons_of_mem _ m))]
      cases pat with
      | nil => exact absurd hp (by simp)
      | cons q qt =>
        have hq : q = p := by simpa using hp
        intro hpre
        simp only [List.isPrefixOf, Bool.and_eq_true, beq_iff_eq] at hpre
        exact hcs (hq ▸ hpre.1 ▸ List.mem_cons_self c rest)

theorem rustReplace_id (s pat rep : String) (p : Char) (hp : pat.data.head? = some p)
    (h : p ∉ s.data) : rustReplace s pat rep = s := by
  unfold rustReplace
  rw [rustReplaceGo_id pat.data rep.data p hp _ s.data h]

theorem unescapeText_id (s : String) (h : '\\' ∉ s.data) :
    TexTokenizer.unescapeText s = s := by
  have hgen : ∀ (l : List Char) (t : String), '\\' ∉ t.data →
      l.foldl (fun acc c => rustReplace acc (String.mk ['\\', c]) (String.mk [c])) t
        = t := by
    intro l
    induction l with
    | nil => intro t _; rfl
    | cons c cl ih =>
      intro t ht
      rw [List.foldl_cons,
        rustReplace_id t (String.mk ['\\', c]) (String.mk [c]) '\\' rfl ht]
      exact ih t ht
  exact hgen TexTokenizer.unescapeChars s h

theorem takeWhile_all_append (p : Char → Bool) :
    ∀ (a b : List Char), (∀ x ∈ a, p x = true) →
    (∀ c, b.head? = some c → p c = false) → (a ++ b).takeWhile p = a := by
  intro a
  induction a with
  | nil =>
    intro b _ hb
    cases b with
    | nil => rfl
    | cons c bs => simp [List.takeWhile_cons, hb c rfl]
  | cons x xs ih =>
    intro b hx hb
    rw [List.cons_append, List.takeWhile_cons_of_pos (hx x (List.mem_cons_self x xs)),
      ih b (fun y hy => hx y (List.mem_cons_of_mem _ hy)) hb]

theorem dropWhile_all_append (p : Char → Bool) :
    ∀ (a b : List Char), (∀ x ∈ a, p x = true) →
    (∀ c, b.head? = some c → p c = false) → (a ++ b).dropWhile p = b := by
  intro a
  induction a with
  | nil =>
    intro b _ hb
    cases b with
    | nil => rfl
    | cons c bs => simp [List.dropWhile_cons, hb c rfl]
  | cons x xs ih =>
    intro b hx hb
    rw [List.cons_append, List.dropWhile_cons_of_pos (hx x (List.mem_cons_self x xs)),
      ih b (fun y hy => hx y (List.mem_cons_of_mem _ hy)) hb]

theorem scanToken_textCmd (cmdData : List Char) (c0 : Char) (ctail : List Char)
    (hcd : cmdData = c0 :: ctail) (hall : ∀ c ∈ cmdData, c.isAlpha = true)
    (mid : List Char) (hmid : ∀ c, mid.head? = some c → c.isAlpha = false) :
    TexTokenizer.scanToken ('\\' :: cmdData ++ mid) =
      .ok (⟨.Command, backslashStr ++ String.mk cmdData⟩, mid) := by
  subst hcd
  have hc0 : c0.isAlpha = true := hall c0 (List.mem_cons_self c0 ctail)
  have d1 := ne_of_isAlpha hc0 '\\' (by decide)
  have d2 := ne_of_isAlpha hc0 ',' (by decide)
  have d3 := ne_of_isAlpha hc0 lbrace (by decide)
  have d4 := ne_of_isAlpha hc0 rbrace (by decide)
  have d5 := ne_of_isAlpha hc0 '%' (by decide)
  have d6 := ne_of_isAlpha hc0 '$' (by decide)
  have d7 := ne_of_isAlpha hc0 '&' (by decide)
  have d8 := ne_of_isAlpha hc0 '#' (by decide)
  have d9 := ne_of_isAlpha hc0 '_' (by decide)
  have d10 := ne_of_isAlpha hc0 '|' (by decide)
  have htake : ((c0 :: ctail) ++ mid).takeWhile isAlphabeticR = c0 :: ctail :=
    takeWhile_all_append isAlphabeticR (c0 :: ctail) mid hall
      (fun c hc => hmid c hc)
  rw [show ('\\' :: (c0 :: ctail) ++ mid) = '\\' :: ((c0 :: ctail) ++ mid)
    from rfl]
  rw [TexTokenizer.scanToken.eq_def]
  dsimp only
  simp only [lbrace, rbrace, List.cons_append]
  rw [if_neg (by decide), if_neg (by decide), if_neg (by decide),
    if_neg (by decide), if_neg (by decide), if_true]
  rw [if_neg (by rintro (h | h) <;> [exact d1 h; exact d2 h])]
  rw [if_neg (by
    rintro (h | h | h | h | h | h | h | h)
    · exact d3 (by rw [h]; rfl)
    · exact d4 (by rw [h]; rfl)
    · exact d5 h
    · exact d6 h
    · exact d7 h
    · exact d8 h
    · exact d9 h
    · exact d10 h)]
  have hname : TexTokenizer.eatCommandName (c0 :: (ctail ++ mid)) =
      String.mk (c0 :: ctail) := by
    unfold TexTokenizer.eatCommandName
    rw [show (c0 :: (ctail ++ mid)) = (c0 :: ctail) ++ mid from rfl, htake]
  rw [hname]
  have hdrop : List.drop (String.mk (c0 :: ctail)).length (c0 :: (ctail ++ mid))
      = mid := by
    rw [show (c0 :: (ctail ++ mid)) = (c0 :: ctail) ++ mid from rfl,
      show (String.mk (c0 :: ctail)).length = (c0 :: ctail).length from rfl]
    exact List.drop_left (c0 :: ctail) mid
  rw [hdrop]

theorem tokenizeLoop_nil (fuel : Nat) (h : 1 ≤ fuel) :
    TexTokenizer.tokenizeLoop fuel [] = .ok [] := by
  obtain ⟨g, rfl⟩ : ∃ g, fuel = g + 1 := ⟨fuel - 1, by omega⟩
  rfl

theorem findClosing_unterminated : ∀ (inner : List Char),
    lbrace ∉ inner → rbrace ∉ inner → '\\' ∉ inner →
    TexTokenizer.findClosingCurlyChar (inner.length + 1) 1 inner =
      .error (.err "Unmatched curly brackets") := by
  intro inner
  induction inner with
  | nil => intro _ _ _; rfl
  | cons c rest ih =>
    intro h1 h2 h3
    have hc1 : c ≠ lbrace := fun e => h1 (e ▸ List.mem_cons_self c rest)
    have hc2 : c ≠ rbrace := fun e => h2 (e ▸ List.mem_cons_self c rest)
    have hc3 : c ≠ '\\' := fun e => h3 (e ▸ List.mem_cons_self c rest)
    have t1 : lbrace ∉ rest := fun m => h1 (List.mem_cons_of_mem _ m)
    have t2 : rbrace ∉ rest := fun m => h2 (List.mem_cons_of_mem _ m)
    have t3 : '\\' ∉ rest := fun m => h3 (List.mem_cons_of_mem _ m)
    simp only [List.length_cons]
    rw [TexTokenizer.findClosingCurlyChar.eq_def]
    dsimp only
    rw [if_neg (fun hh => hc3 hh.1), if_neg hc1, if_neg hc2]
    rw [ih t1 t2 t3]
    rfl

theorem findClosing_simple : ∀ (inner : List Char),
    lbrace ∉ inner → rbrace ∉ inner → '\\' ∉ inner →
    ∀ fuel, inner.length + 1 ≤ fuel →
    TexTokenizer.findClosingCurlyChar fuel 1 (inner ++ [rbrace]) = .ok (inner, []) := by
  intro inner
  induction inner with
  | nil =>
    intro _ _ _ fuel hf
    obtain ⟨f, rfl⟩ : ∃ f, fuel = f + 1 := ⟨fuel - 1, by omega⟩
    rw [show (([] : List Char) ++ [rbrace]) = [rbrace] from rfl,
      TexTokenizer.findClosingCurlyChar.eq_def]
    dsimp only
    rw [if_neg (fun hh => absurd hh.1 (by decide)), if_neg (by decide),
      if_pos rfl, if_pos rfl]
  | cons c rest ih =>
    intro h1 h2 h3 fuel hf
    have hc1 : c ≠ lbrace := fun e => h1 (e ▸ List.mem_cons_self c rest)
    have hc2 : c ≠ rbrace := fun e => h2 (e ▸ List.mem_cons_self c rest)
    have hc3 : c ≠ '\\' := fun e => h3 (e ▸ List.mem_cons_self c rest)
    have t1 : lbrace ∉ rest := fun m => h1 (List.mem_cons_of_mem _ m)
    have t2 : rbrace ∉ rest := fun m => h2 (List.mem_cons_of_mem _ m)
    have t3 : '\\' ∉ rest := fun m => h3 (List.mem_cons_of_mem _ m)
    simp only [List.length_cons] at hf
    obtain ⟨f, rfl⟩ : ∃ f, fuel = f + 1 := ⟨fuel - 1, by omega⟩
    rw [List.cons_append, TexTokenizer.findClosingCurlyChar.eq_def]
    dsimp only
    rw [if_neg (fun hh => hc3 hh.1), if_neg hc1, if_neg hc2]
    rw [ih t1 t2 t3 f (by omega)]
    rfl

/-- Claim C5 (amended): after a `\text`-style command the tokenizer seeks the
NEXT `\x7b` anywhere in the remaining input, silently discarding the characters
before it; only when no `\x7b` exists at all does it return the "No content"
error; an unterminated block is the "Unmatched curly brackets" error; a found
block becomes a single Text token (here with backslash-free contents, so the
unescaping is the identity). -/
theorem claim_C5_amended (cmdData : List Char) (c0 : Char) (ctail : List Char)
    (hcd : cmdData = c0 :: ctail) (hall : ∀ c ∈ cmdData, c.isAlpha = true)
    (htc : backslashStr ++ String.mk cmdData ∈ TexTokenizer.textCommands)
    (mid : List Char) (hmid : ∀ c, mid.head? = some c → c.isAlpha = false) :
    (lbrace ∉ mid →
      TexTokenizer.tokenize (String.mk ('\\' :: cmdData ++ mid)) =
        .error (.err ("No content for " ++ (backslashStr ++ String.mk cmdData)
          ++ " command")))
    ∧ (∀ pre inner, mid = pre ++ lbrace :: inner → (∀ x ∈ pre, x ≠ lbrace) →
        lbrace ∉ inner → rbrace ∉ inner → '\\' ∉ inner →
        TexTokenizer.tokenize (String.mk ('\\' :: cmdData ++ mid)) =
          .error (.err "Unmatched curly brackets"))
    ∧ (∀ pre inner, mid = pre ++ lbrace :: (inner ++ [rbrace]) →
        (∀ x ∈ pre, x ≠ lbrace) →
        lbrace ∉ inner → rbrace ∉ inner → '\\' ∉ inner →
        TexTokenizer.tokenize (String.mk ('\\' :: cmdData ++ mid)) =
          .ok [⟨.Command, backslashStr ++ String.mk cmdData⟩, ⟨.Control, lbraceStr⟩,
            ⟨.Text, String.mk inner⟩, ⟨.Control, rbraceStr⟩]) := by
  have hbase : TexTokenizer.tokenize (String.mk ('\\' :: cmdData ++ mid)) =
      (match mid.dropWhile (fun d => d ≠ lbrace) with
       | [] => .error (.err ("No content for " ++ (backslashStr ++ String.mk cmdData)
          ++ " command"))
       | _ :: afterBrace => do
          let (insideCs, rest3) ←
            TexTokenizer.findClosingCurlyChar (afterBrace.length + 1) 1 afterBrace
          let toks ← TexTokenizer.tokenizeLoop (('\\' :: cmdData ++ mid).length) rest3
          .ok (⟨.Command, backslashStr ++ String.mk cmdData⟩
            :: ⟨.Control, lbraceStr⟩
            :: ⟨.Text, TexTokenizer.unescapeText (String.mk insideCs)⟩
            :: ⟨.Control, rbraceStr⟩ :: toks)) := by
    show TexTokenizer.tokenizeLoop (('\\' :: cmdData ++ mid).length + 1)
      ('\\' :: cmdData ++ mid) = _
    rw [TexTokenizer.tokenizeLoop.eq_def]
    dsimp only
    rw [scanToken_textCmd cmdData c0 ctail hcd hall mid hmid]
    simp only [bind, Except.bind]
    rw [if_pos ⟨trivial, htc⟩]
    rfl
  refine ⟨?_, ?_, ?_⟩
  · intro hnone
    rw [hbase]
    have hdw : mid.dropWhile (fun d => d ≠ lbrace) = [] := by
      rw [List.dropWhile_eq_nil_iff]
      intro x hx
      have hxl : x ≠ lbrace := fun he => hnone (he ▸ hx)
      simpa using hxl
    rw [hdw]
  · intro pre inner hsplit hpre hin1 hin2 hin3
    rw [hbase]
    have hdw : mid.dropWhile (fun d => d ≠ lbrace) = lbrace :: inner := by
      rw [hsplit]
      exact dropWhile_all_append _ pre (lbrace :: inner)
        (fun x hx => by simpa using hpre x hx) (fun c hc => by cases hc; simp)
    rw [hdw]
    dsimp only
    rw [findClosing_unterminated inner hin1 hin2 hin3]
    rfl
  · intro pre inner hsplit hpre hin1 hin2 hin3
    rw [hbase]
    have hdw : mid.dropWhile (fun d => d ≠ lbrace) = lbrace :: (inner ++ [rbrace]) := by
      rw [hsplit]
      exact dropWhile_all_append _ pre (lbrace :: (inner ++ [rbrace]))
        (fun x hx => by simpa using hpre x hx) (fun c hc => by cases hc; simp)
    rw [hdw]
    dsimp only
    rw [findClosing_simple inner hin1 hin2 hin3 ((inner ++ [rbrace]).length + 1)
      (by simp)]
    simp only [bind, Except.bind]
    rw [unescapeText_id (String.mk inner) hin3]
    rw [tokenizeLoop_nil (('\\' :: cmdData ++ mid).length)
      (Nat.succ_le_succ (Nat.zero_le _))]

/-- Witness for the amended C5: `\text\x7bb\x7d` tokenizes to the four-token
Command/brace/Text/brace sequence. -/
theorem claim_C5_amended_witness :
    TexTokenizer.tokenize (String.mk ('\\' :: "text".data ++ [lbrace, 'b', rbrace])) =
      .ok [⟨.Command, backslashStr ++ String.mk "text".data⟩, ⟨.Control, lbraceStr⟩,
        ⟨.Text, String.mk ['b']⟩, ⟨.Control, rbraceStr⟩] :=
  (claim_C5_amended "text".data 't' "ext".data rfl (by decide) (by decide)
    [lbrace, 'b', rbrace] (fun c hc => by cases hc; decide)).2.2
    [] ['b'] rfl (by simp) (by decide) (by decide) (by decide)

/-- A registered unary macro whose body mentions another registered macro:
`\newcommand\x7b\f\x7d[1]\x7b\g\x7b#1#1\x7d\x7d`. -/
def fMac : CustomMacroData := ⟨"\\f", .Unary, 1, none, "\\g\x7b#1#1\x7d"⟩

/-- A registered unary macro `\newcommand\x7b\g\x7d[1]\x7b#1\x7d`. -/
def gMac : CustomMacroData := ⟨"\\g", .Unary, 1, none, "#1"⟩

/-- A registry holding both macros. -/
def regFG : CommandRegistry := ⟨[fMac, gMac]⟩

/-- Claim C3, counterexample: expanding `\f\x7b\g\x7ba\x7d\x7d` does expand
the captured argument recursively (the inner `\g\x7ba\x7d` becomes `a` before
substitution) but the re-tokenized body is spliced WITHOUT further expansion:
the output still contains the registered command `\g` (conjunct 2), which the
expander itself would rewrite further (conjunct 4), so the stream is not fully
expanded as the claim requires. -/
theorem claim_C3_counterexample :
    TexTokenizer.tokenize "\\f\x7b\\g\x7ba\x7d\x7d" =
      .ok [⟨.Command, "\\f"⟩, ⟨.Control, lbraceStr⟩, ⟨.Command, "\\g"⟩,
        ⟨.Control, lbraceStr⟩, ⟨.Element, "a"⟩, ⟨.Control, rbraceStr⟩,
        ⟨.Control, rbraceStr⟩]
    ∧ expandMacros 16 regFG [⟨.Command, "\\f"⟩, ⟨.Control, lbraceStr⟩,
        ⟨.Command, "\\g"⟩, ⟨.Control, lbraceStr⟩, ⟨.Element, "a"⟩,
        ⟨.Control, rbraceStr⟩, ⟨.Control, rbraceStr⟩] =
      .ok [⟨.Command, "\\g"⟩, ⟨.Control, lbraceStr⟩, ⟨.Element, "a"⟩,
        ⟨.Element, "a"⟩, ⟨.Control, rbraceStr⟩]
    ∧ (regFG.customMacros.find? fun m => m.name = "\\g") = some gMac
    ∧ expandMacros 16 regFG [⟨.Command, "\\g"⟩, ⟨.Control, lbraceStr⟩,
        ⟨.Element, "a"⟩, ⟨.Element, "a"⟩, ⟨.Control, rbraceStr⟩] =
      .ok [⟨.Element, "a"⟩, ⟨.Element, "a"⟩] :=
  ⟨rfl, rfl, rfl, rfl⟩

/-- Substituting `#1` in the body of `\f` splices the replacement twice,
verbatim. -/
theorem replace_fBody (S : String) :
    rustReplace "\\g\x7b#1#1\x7d" "#1" S =
      String.mk ('\\' :: 'g' :: lbrace :: (S.data ++ (S.data ++ [rbrace]))) := rfl

theorem goCurlyToken_clean : ∀ (l : List TexToken),
    (∀ t ∈ l, t.value ≠ lbraceStr ∧ t.value ≠ rbraceStr ∧ t.value ≠ backslashStr) →
    goCurlyToken 1 (l ++ [⟨.Control, rbraceStr⟩]) = some (l, []) := by
  intro l
  induction l with
  | nil => intro _; rfl
  | cons a rest ih =>
    intro h
    have ha := h a (List.mem_cons_self a rest)
    rw [List.cons_append, goCurlyToken.eq_def]
    dsimp only
    rw [if_neg (fun hc => ha.2.2 hc.1), if_neg ha.1, if_neg ha.2.1]
    rw [ih (fun t ht => h t (List.mem_cons_of_mem _ ht))]
    rfl

theorem expandMacros_noCommand (reg : CommandRegistry) : ∀ (fuel : Nat)
    (arg : List TexToken), arg.length < fuel →
    (∀ t ∈ arg, t.token_type ≠ TexTokenType.Command) →
    expandMacros fuel reg arg = .ok arg := by
  intro fuel
  induction fuel with
  | zero => intro arg h _; omega
  | succ f ih =>
    intro arg hlen hnc
    cases arg with
    | nil => rfl
    | cons t rest =>
      rw [expandMacros]
      rw [if_neg (hnc t (List.mem_cons_self t rest))]
      rw [ih rest (by simp only [List.length_cons] at hlen; omega)
        (fun u hu => hnc u (List.mem_cons_of_mem _ hu))]
      rfl

/-- Claim C3 (amended): for a registered unary macro the captured argument is
recursively expanded before substitution and `#1` is replaced by the
stringified tokens, BUT the re-tokenized body is spliced into the output
without any further macro expansion: expanding `\f\x7barg\x7d` under `regFG`
returns exactly the tokenization of the substituted body `\g\x7bSS\x7d`
(`S` the stringified argument) — with its registered `\g` left unexpanded. -/
theorem claim_C3_amended (arg : List TexToken) (a0 : TexToken)
    (arest : List TexToken) (hne : arg = a0 :: arest)
    (hnc : ∀ t ∈ arg, t.token_type ≠ TexTokenType.Command)
    (hnv : ∀ t ∈ arg, t.value ≠ lbraceStr ∧ t.value ≠ rbraceStr
      ∧ t.value ≠ backslashStr)
    (fuel : Nat) (hf : arg.length + 4 ≤ fuel) :
    expandMacros fuel regFG
      (⟨.Command, "\\f"⟩ :: ⟨.Control, lbraceStr⟩ :: (arg ++ [⟨.Control, rbraceStr⟩])) =
      TexTokenizer.tokenize
        (String.mk ('\\' :: 'g' :: lbrace ::
          ((stringifyTokens arg).data ++ ((stringifyTokens arg).data ++ [rbrace])))) := by
  obtain ⟨f, rfl⟩ : ∃ f, fuel = f + 1 := ⟨fuel - 1, by omega⟩
  rw [expandMacros]
  rw [if_pos rfl]
  rw [show (regFG.customMacros.find? fun m =>
    m.name = (⟨.Command, "\\f"⟩ : TexToken).value) = some fMac from rfl]
  have hfind : findMatchingRightCurlyToken (arg ++ [⟨.Control, rbraceStr⟩]) =
      some (arg, []) := by
    rw [hne, List.cons_append, findMatchingRightCurlyToken]
    rw [goCurlyToken_clean arest
      (fun t ht => hnv t (hne ▸ List.mem_cons_of_mem _ ht))]
    rfl
  obtain ⟨g, rfl⟩ : ∃ g, f = g + 1 := ⟨f - 1, by omega⟩
  dsimp only
  have hexp : expandCommand (g + 1) regFG fMac
      (⟨.Command, "\\f"⟩ :: ⟨.Control, lbraceStr⟩ :: (arg ++ [⟨.Control, rbraceStr⟩])) =
      (match findMatchingRightCurlyToken (arg ++ [⟨.Control, rbraceStr⟩]) with
       | some (argToks, after) => do
          let argExp ← expandMacros g regFG argToks
          let expanded ← runCustomMacroImpl fMac [argExp]
          .ok (expanded, after)
       | none => .error (.err ("Unmatched curly brackets for command " ++ fMac.name))) :=
    rfl
  rw [hexp, hfind]
  dsimp only
  rw [expandMacros_noCommand regFG g arg
    (by rw [hne] at hf ⊢; simp only [List.length_cons] at hf ⊢; omega) hnc]
  simp only [bind, Except.bind]
  rw [show runCustomMacroImpl fMac [arg] =
    TexTokenizer.tokenize (rustReplace "\\g\x7b#1#1\x7d" "#1" (stringifyTokens arg))
    from rfl]
  rw [replace_fBody]
  cases htok : TexTokenizer.tokenize
      (String.mk ('\\' :: 'g' :: lbrace ::
        ((stringifyTokens arg).data ++ ((stringifyTokens arg).data ++ [rbrace])))) with
  | error e => rfl
  | ok l =>
    dsimp only
    rw [show expandMacros (g + 1) regFG [] = .ok [] from rfl]
    simp

/-- Witness for the amended C3: `\f\x7ba\x7d` expands to the tokens of
`\g\x7baa\x7d`. -/
theorem claim_C3_amended_witness :
    expandMacros 8 regFG
      (⟨.Command, "\\f"⟩ :: ⟨.Control, lbraceStr⟩ ::
        ([⟨.Element, "a"⟩] ++ [⟨.Control, rbraceStr⟩])) =
      TexTokenizer.tokenize
        (String.mk ('\\' :: 'g' :: lbrace ::
          ((stringifyTokens [⟨.Element, "a"⟩]).data ++
            ((stringifyTokens [⟨.Element, "a"⟩]).data ++ [rbrace])))) :=
  claim_C3_amended [⟨.Element, "a"⟩] ⟨.Element, "a"⟩ [] rfl
    (by decide) (by decide) 8 (by decide)

theorem goInlineSpan_clean : ∀ (s : List Char) (acc after : List Char),
    '\\' ∉ s → '\n' ∉ s → (acc ≠ [] ∨ s ≠ []) →
    goInlineSpan acc (s ++ '\\' :: ')' :: after) = some (acc.reverse ++ s, after) := by
  intro s
  induction s with
  | nil =>
    intro acc after _ _ hne
    have hacc : acc ≠ [] := hne.resolve_right (fun h => h rfl)
    rw [List.nil_append, goInlineSpan]
    rw [if_pos ⟨by simp [List.isPrefixOf], hacc⟩]
    simp
  | cons c s' ih =>
    intro acc after hb hn hne
    have hc1 : c ≠ '\\' := fun e => hb (e ▸ List.mem_cons_self c s')
    have hc2 : c ≠ '\n' := fun e => hn (e ▸ List.mem_cons_self c s')
    have tb : '\\' ∉ s' := fun m => hb (List.mem_cons_of_mem _ m)
    have tn : '\n' ∉ s' := fun m => hn (List.mem_cons_of_mem _ m)
    rw [List.cons_append, goInlineSpan]
    rw [if_neg (by
      intro hh
      have h1 := hh.1
      simp [List.isPrefixOf] at h1
      exact hc1 h1.1.symm)]
    rw [if_neg hc2]
    rw [ih (c :: acc) after tb tn (Or.inl (by simp))]
    simp

theorem goDisplaySpan_clean : ∀ (s : List Char) (acc after : List Char),
    '\\' ∉ s → (acc ≠ [] ∨ s ≠ []) →
    goDisplaySpan acc (s ++ '\\' :: ']' :: after) = some (acc.reverse ++ s, after) := by
  intro s
  induction s with
  | nil =>
    intro acc after _ hne
    have hacc : acc ≠ [] := hne.resolve_right (fun h => h rfl)
    rw [List.nil_append, goDisplaySpan]
    rw [if_pos ⟨by simp [List.isPrefixOf], hacc⟩]
    simp
  | cons c s' ih =>
    intro acc after hb hne
    have hc1 : c ≠ '\\' := fun e => hb (e ▸ List.mem_cons_self c s')
    have tb : '\\' ∉ s' := fun m => hb (List.mem_cons_of_mem _ m)
    rw [List.cons_append, goDisplaySpan]
    rw [if_neg (by
      intro hh
      have h1 := hh.1
      simp [List.isPrefixOf] at h1
      exact hc1 h1.1.symm)]
    rw [ih (c :: acc) after tb (Or.inl (by simp))]
    simp

theorem tryInlineSpan_ne (c : Char) (r : List Char) (h : c ≠ '\\') :
    tryInlineSpan (c :: r) = none := by
  rw [tryInlineSpan.eq_def]
  split
  · next heq =>
    injection heq with h1 _
    exact absurd h1 h
  · rfl

theorem tryDisplaySpan_ne (c : Char) (r : List Char) (h : c ≠ '\\') :
    tryDisplaySpan (c :: r) = none := by
  rw [tryDisplaySpan.eq_def]
  split
  · next heq =>
    injection heq with h1 _
    exact absurd h1 h
  · rfl

theorem findSpan_none : ∀ (cs : List Char), '\\' ∉ cs → findSpan cs = none := by
  intro cs
  induction cs with
  | nil => intro _; rfl
  | cons c rest ih =>
    intro h
    have hc : c ≠ '\\' := fun e => h (e ▸ List.mem_cons_self c rest)
    rw [findSpan, tryInlineSpan_ne c rest hc, tryDisplaySpan_ne c rest hc,
      ih (fun m => h (List.mem_cons_of_mem _ m))]
    rfl

theorem findSpan_through : ∀ (pre cs : List Char) (p1 : List Char) (b : Bool)
    (i r : List Char), '\\' ∉ pre → findSpan cs = some (p1, b, i, r) →
    findSpan (pre ++ cs) = some (pre ++ p1, b, i, r) := by
  intro pre
  induction pre with
  | nil => intro cs p1 b i r _ h; simpa using h
  | cons c pre' ih =>
    intro cs p1 b i r hb h
    have hc : c ≠ '\\' := fun e => hb (e ▸ List.mem_cons_self c pre')
    rw [List.cons_append, findSpan, tryInlineSpan_ne c _ hc, tryDisplaySpan_ne c _ hc,
      ih cs p1 b i r (fun m => hb (List.mem_cons_of_mem _ m)) h]
    rfl

theorem findSpan_inline (s1 after : List Char) (hne : s1 ≠ []) (hb : '\\' ∉ s1)
    (hn : '\n' ∉ s1) :
    findSpan ('\\' :: '(' :: (s1 ++ '\\' :: ')' :: after)) = some ([], true, s1, after) := by
  rw [findSpan]
  rw [show tryInlineSpan ('\\' :: '(' :: (s1 ++ '\\' :: ')' :: after)) =
    goInlineSpan [] (s1 ++ '\\' :: ')' :: after) from rfl]
  rw [goInlineSpan_clean s1 [] after hb hn (Or.inr hne)]
  rfl

theorem findSpan_display (s2 after : List Char) (hne : s2 ≠ []) (hb : '\\' ∉ s2) :
    findSpan ('\\' :: '[' :: (s2 ++ '\\' :: ']' :: after)) = some ([], false, s2, after) := by
  rw [findSpan]
  rw [show tryInlineSpan ('\\' :: '[' :: (s2 ++ '\\' :: ']' :: after)) = none from rfl]
  rw [show tryDisplaySpan ('\\' :: '[' :: (s2 ++ '\\' :: ']' :: after)) =
    goDisplaySpan [] (s2 ++ '\\' :: ']' :: after) from rfl]
  rw [goDisplaySpan_clean s2 [] after hb (Or.inr hne)]
  rfl

theorem textAndTex2typstGo_step (f : Nat) (cs pre s rest : List Char) (isInline : Bool)
    (hfind : findSpan cs = some (pre, isInline, s, rest)) :
    textAndTex2typstGo (f + 1) cs = (do
      let conv ← tex2typst (rustTrim (String.mk s))
      let rep := if isInline then "$" ++ conv ++ "$" else "$\n" ++ conv ++ "\n$"
      let tail ← textAndTex2typstGo f rest
      .ok (pre ++ rep.data ++ tail)) := by
  rw [textAndTex2typstGo, hfind]

theorem textAndTex2typstGo_none (f : Nat) (cs : List Char)
    (h : findSpan cs = none) : textAndTex2typstGo (f + 1) cs = .ok cs := by
  rw [textAndTex2typstGo, h]

/-- Claim C7: on a document made of a backslash-free prefix, an inline span
`\(s1\)`, backslash-free middle text, a display span `\[s2\]`, and a
backslash-free suffix: when both interiors convert, the inline span is
replaced by `$…$` and the display span by `$\n…\n$` with all surrounding text
verbatim; when the first interior fails, the whole call returns that error
(no partial substitution); likewise when the second fails after the first
succeeds; and a document with no spans at all is returned verbatim. -/
theorem claim_C7_document (pre mid post s1 s2 : List Char)
    (hpre : '\\' ∉ pre) (hmid : '\\' ∉ mid) (hpost : '\\' ∉ post)
    (hs1ne : s1 ≠ []) (hs1b : '\\' ∉ s1) (hs1n : '\n' ∉ s1)
    (hs2ne : s2 ≠ []) (hs2b : '\\' ∉ s2) :
    (∀ t1 t2, tex2typst (rustTrim (String.mk s1)) = .ok t1 →
      tex2typst (rustTrim (String.mk s2)) = .ok t2 →
      text_and_tex2typst (String.mk (pre ++ ('\\' :: '(' :: (s1 ++ ('\\' :: ')' ::
          (mid ++ ('\\' :: '[' :: (s2 ++ ('\\' :: ']' :: post))))))))) =
        .ok (String.mk (pre ++ (("$" ++ t1 ++ "$").data ++
          (mid ++ (("$\n" ++ t2 ++ "\n$").data ++ post))))))
    ∧ (∀ e, tex2typst (rustTrim (String.mk s1)) = .error e →
      text_and_tex2typst (String.mk (pre ++ ('\\' :: '(' :: (s1 ++ ('\\' :: ')' ::
          (mid ++ ('\\' :: '[' :: (s2 ++ ('\\' :: ']' :: post))))))))) = .error e)
    ∧ (∀ t1 e, tex2typst (rustTrim (String.mk s1)) = .ok t1 →
      tex2typst (rustTrim (String.mk s2)) = .error e →
      text_and_tex2typst (String.mk (pre ++ ('\\' :: '(' :: (s1 ++ ('\\' :: ')' ::
          (mid ++ ('\\' :: '[' :: (s2 ++ ('\\' :: ']' :: post))))))))) = .error e)
    ∧ (∀ cs : List Char, '\\' ∉ cs →
      text_and_tex2typst (String.mk cs) = .ok (String.mk cs)) := by
  have hf2 : findSpan (mid ++ ('\\' :: '[' :: (s2 ++ ('\\' :: ']' :: post)))) =
      some (mid, false, s2, post) := by
    have := findSpan_through mid _ [] false s2 post hmid
      (findSpan_display s2 post hs2ne hs2b)
    simpa using this
  have hf1 : findSpan (pre ++ ('\\' :: '(' :: (s1 ++ ('\\' :: ')' ::
      (mid ++ ('\\' :: '[' :: (s2 ++ ('\\' :: ']' :: post)))))))) =
      some (pre, true, s1, mid ++ ('\\' :: '[' :: (s2 ++ ('\\' :: ']' :: post)))) := by
    have := findSpan_through pre _ [] true s1 _ hpre
      (findSpan_inline s1 (mid ++ ('\\' :: '[' :: (s2 ++ ('\\' :: ']' :: post))))
        hs1ne hs1b hs1n)
    simpa using this
  have hf3 : findSpan post = none := findSpan_none post hpost
  have hlen : ∃ n, (pre ++ ('\\' :: '(' :: (s1 ++ ('\\' :: ')' ::
      (mid ++ ('\\' :: '[' :: (s2 ++ ('\\' :: ']' :: post)))))))).length + 1 =
      ((n + 1) + 1) + 1 :=
    ⟨(pre ++ ('\\' :: '(' :: (s1 ++ ('\\' :: ')' ::
      (mid ++ ('\\' :: '[' :: (s2 ++ ('\\' :: ']' :: post)))))))).length - 2, by
      simp only [List.length_append, List.length_cons]
      omega⟩
  obtain ⟨n, hn⟩ := hlen
  refine ⟨?_, ?_, ?_, ?_⟩
  · intro t1 t2 ht1 ht2
    show (textAndTex2typstGo ((pre ++ ('\\' :: '(' :: (s1 ++ ('\\' :: ')' ::
      (mid ++ ('\\' :: '[' :: (s2 ++ ('\\' :: ']' :: post)))))))).length + 1)
      (pre ++ ('\\' :: '(' :: (s1 ++ ('\\' :: ')' ::
      (mid ++ ('\\' :: '[' :: (s2 ++ ('\\' :: ']' :: post))))))))).map String.mk = _
    rw [hn]
    rw [textAndTex2typstGo_step ((n + 1) + 1) _ pre s1 _ true hf1]
    rw [ht1]
    simp only [bind, Except.bind]
    rw [textAndTex2typstGo_step (n + 1) _ mid s2 post false hf2]
    rw [ht2]
    simp only [bind, Except.bind]
    rw [textAndTex2typstGo_none n post hf3]
    simp only [List.append_assoc]
    rfl
  · intro e he
    show (textAndTex2typstGo ((pre ++ ('\\' :: '(' :: (s1 ++ ('\\' :: ')' ::
      (mid ++ ('\\' :: '[' :: (s2 ++ ('\\' :: ']' :: post)))))))).length + 1)
      (pre ++ ('\\' :: '(' :: (s1 ++ ('\\' :: ')' ::
      (mid ++ ('\\' :: '[' :: (s2 ++ ('\\' :: ']' :: post))))))))).map String.mk = _
    rw [hn]
    rw [textAndTex2typstGo_step ((n + 1) + 1) _ pre s1 _ true hf1]
    rw [he]
    rfl
  · intro t1 e ht1 he
    show (textAndTex2typstGo ((pre ++ ('\\' :: '(' :: (s1 ++ ('\\' :: ')' ::
      (mid ++ ('\\' :: '[' :: (s2 ++ ('\\' :: ']' :: post)))))))).length + 1)
      (pre ++ ('\\' :: '(' :: (s1 ++ ('\\' :: ')' ::
      (mid ++ ('\\' :: '[' :: (s2 ++ ('\\' :: ']' :: post))))))))).map String.mk = _
    rw [hn]
    rw [textAndTex2typstGo_step ((n + 1) + 1) _ pre s1 _ true hf1]
    rw [ht1]
    simp only [bind, Except.bind]
    rw [textAndTex2typstGo_step (n + 1) _ mid s2 post false hf2]
    rw [he]
    rfl
  · intro cs hcs
    show (textAndTex2typstGo (cs.length + 1) cs).map String.mk = _
    rw [textAndTex2typstGo_none cs.length cs (findSpan_none cs hcs)]
    rfl

/-- Witness for C7: the document `x\(a\) y\[b\]z` converts to
`x$a$ y$\nb\n$z`, and a backslash-free document is returned verbatim. -/
theorem claim_C7_witness :
    (text_and_tex2typst (String.mk (['x'] ++ ('\\' :: '(' :: (['a'] ++ ('\\' :: ')' ::
          ([' ', 'y'] ++ ('\\' :: '[' :: (['b'] ++ ('\\' :: ']' :: ['z']))))))))) =
        .ok (String.mk (['x'] ++ (("$" ++ "a" ++ "$").data ++
          ([' ', 'y'] ++ (("$\n" ++ "b" ++ "\n$").data ++ ['z']))))))
    ∧ text_and_tex2typst (String.mk ['h', 'i']) = .ok (String.mk ['h', 'i']) := by
  have h := claim_C7_document ['x'] [' ', 'y'] ['z'] ['a'] ['b']
    (by decide) (by decide) (by decide) (by decide) (by decide) (by decide)
    (by decide) (by decide)
  exact ⟨h.1 "a" "b" rfl rfl, h.2.2.2 ['h', 'i'] (by decide)⟩
